import Mathlib

/-!
Shallow embedding of the composition-based clustering engine of
`cluster_municipios.py` (feature matrix, TF-shrinkage-IDF weighting,
unit normalization, cosine k-means, signatures, orchestrator), together
with theorems settling the specification claims.

Python floats are modelled as real numbers; Python's `random` module
(re-seeded with the fixed seed 0 inside `kmeans`, hence a deterministic
stream) is modelled as an explicit `Rng` parameter providing the values
of `random.sample` and `random.choice`.
-/

namespace ClusterMunicipios

noncomputable section

/-- A municipality record: `{name, code, species}` as loaded from the
cached JSON (`load_municipios`). -/
structure Municipio where
  name : String
  code : String
  species : List String

/-- One taxonomy entry as produced by `load_taxonomy`: order, family
(scientific preferred, falling back to common, else "unknown"), common
name and scientific name (empty string when absent). -/
structure TaxonInfo where
  taxOrder : String
  family : String
  common : String
  scientific : String

/-- The taxonomic resolution level (`--level` CLI choice). -/
inductive Level where
  | species
  | family
  | order
deriving DecidableEq

/-- Models `taxonomy.get(code, {}).get(level_key, "unknown")` for the non-species
levels; the species level uses the code itself (`build_feature_matrix`). -/
def levelValue (taxonomy : String → Option TaxonInfo) (level : Level) (code : String) : String :=
  match level with
  | Level.species => code
  | Level.family =>
    match taxonomy code with
    | some t => t.family
    | none => "unknown"
  | Level.order =>
    match taxonomy code with
    | some t => t.taxOrder
    | none => "unknown"

/-- The list of feature values of one region's species list. -/
def regionValues (taxonomy : String → Option TaxonInfo) (level : Level)
    (m : Municipio) : List String :=
  m.species.map (levelValue taxonomy level)

/-- Models Python's `sorted(set(...))`: distinct values in ascending order. -/
def sortedDedup (l : List String) : List String :=
  l.dedup.mergeSort (fun a b => decide (a ≤ b))

/-- Source `build_feature_matrix`: per-region counts of each feature value, with
columns indexed by the sorted list of all feature values seen. -/
def build_feature_matrix (municipios : List Municipio)
    (taxonomy : String → Option TaxonInfo) (level : Level) :
    List (List ℝ) × List String :=
  let rowsVals := municipios.map (regionValues taxonomy level)
  let level_names := sortedDedup rowsVals.flatten
  (rowsVals.map (fun vals => level_names.map (fun nm => ((vals.count nm : ℕ) : ℝ))),
    level_names)

/-- Source `normalize_rows`: each row scaled to sum 1; a row with non-positive
total becomes the all-zero row of the same length. -/
def normalize_rows (rows : List (List ℝ)) : List (List ℝ) :=
  rows.map (fun row =>
    if row.sum ≤ 0 then List.replicate row.length 0
    else row.map (fun v => v / row.sum))

/-- Sum of column `j` across all rows (absent entries contribute 0; the
callers only ever pass the rectangular matrix built by
`build_feature_matrix`). -/
def colSum (rows : List (List ℝ)) (j : ℕ) : ℝ :=
  (rows.map (fun r => r.getD j 0)).sum

/-- Source `compute_global_distribution`: element-wise sums over all rows,
normalized by the grand total (all-zero if the grand total is not
positive; empty for an empty matrix). -/
def compute_global_distribution (rows : List (List ℝ)) : List ℝ :=
  match rows with
  | [] => []
  | r0 :: _ =>
    let totals := (List.range r0.length).map (colSum rows)
    if totals.sum ≤ 0 then List.replicate totals.length 0
    else totals.map (fun v => v / totals.sum)

/-- Number of rows whose entry in column `j` is positive (`df` in
`compute_idf`). -/
def dfCount (rows : List (List ℝ)) (j : ℕ) : ℕ :=
  (rows.filter (fun r => decide (0 < r.getD j 0))).length

/-- Source `compute_idf`: smoothed inverse document frequency
`log((1 + N) / (1 + df_j)) + 1`; empty for an empty matrix. -/
def compute_idf (rows : List (List ℝ)) : List ℝ :=
  match rows with
  | [] => []
  | r0 :: _ =>
    (List.range r0.length).map (fun j =>
      Real.log ((1 + (rows.length : ℝ)) / (1 + (dfCount rows j : ℝ))) + 1)

/-- Source `apply_tfidf_shrinkage`: raw row totals, term-frequency rows shrunk
toward the global distribution with blend weight `t / (t + s)` (when
`s > 0` and the global distribution is nonempty), then scaled by IDF.
A row with non-positive total becomes all-zero. -/
def apply_tfidf_shrinkage (rows : List (List ℝ)) (shrink_strength : ℝ) :
    List (List ℝ) × List ℝ :=
  let row_totals := rows.map List.sum
  let tf_rows := normalize_rows rows
  let global_dist := compute_global_distribution rows
  let idf := compute_idf rows
  let weighted_rows := (row_totals.zip tf_rows).map (fun p =>
    if p.1 ≤ 0 then List.replicate p.2.length 0
    else
      let tf_row := if 0 < shrink_strength ∧ global_dist ≠ [] then
          p.2.enum.map (fun q =>
            (p.1 / (p.1 + shrink_strength)) * q.2
              + (1 - p.1 / (p.1 + shrink_strength)) * global_dist.getD q.1 0)
        else p.2
      tf_row.enum.map (fun q => q.2 * idf.getD q.1 0))
  (weighted_rows, row_totals)

/-- Sum of squares of a row (`sum(value * value for value in row)`). -/
def sqMagnitude (row : List ℝ) : ℝ :=
  (row.map (fun v => v * v)).sum

/-- Source `unit_vector`: divide by the Euclidean norm; all-zero rows (more
precisely, rows of non-positive magnitude) are replaced by the all-zero
row of the same length. -/
def unit_vector (row : List ℝ) : List ℝ :=
  if Real.sqrt (sqMagnitude row) ≤ 0 then List.replicate row.length 0
  else row.map (fun v => v / Real.sqrt (sqMagnitude row))

/-- Models `sum(x * y for x, y in zip(a, b))`. -/
def dotList (a b : List ℝ) : ℝ :=
  (List.zipWith (fun x y => x * y) a b).sum

/-- Source `cosine_distance`: `1 - dot / (|a| * |b|)`, and `1.0` when either
magnitude is zero. -/
def cosine_distance (a b : List ℝ) : ℝ :=
  if Real.sqrt (sqMagnitude a) = 0 ∨ Real.sqrt (sqMagnitude b) = 0 then 1
  else 1 - dotList a b / (Real.sqrt (sqMagnitude a) * Real.sqrt (sqMagnitude b))

/-- The deterministic random stream obtained from `random.seed(0)`,
abstracted: `sample n k` is the value of `random.sample(range(n), k)`
and `choice it idx n` is the index into the vector list drawn by
`random.choice` when reseeding cluster `idx` at iteration `it`. -/
structure Rng where
  sample : ℕ → ℕ → List ℕ
  choice : ℕ → ℕ → ℕ → ℕ

/-- Models `min(range(k), key=lambda index: f(index))`: the first index of `[0, k)`
attaining the minimal key (Python's `min` keeps the earliest minimum). -/
def argminIdx (f : ℕ → ℝ) (k : ℕ) : ℕ :=
  (List.range k).foldl (fun best i => if f i < f best then i else best) 0

/-- The k-means assignment step for one vector: index of the nearest
center under cosine distance, ties to the lowest index. -/
def assignOne (centers : List (List ℝ)) (k : ℕ) (v : List ℝ) : ℕ :=
  argminIdx (fun i => cosine_distance v (centers.getD i [])) k

/-- Models `[sum(values) / len(cluster) for values in zip(*cluster)]`: the
column-wise arithmetic mean, over the columns common to every member. -/
def meanRows (cluster : List (List ℝ)) : List ℝ :=
  match cluster with
  | [] => []
  | r0 :: rest =>
    let cols := rest.foldl (fun m r => Nat.min m r.length) r0.length
    (List.range cols).map (fun j =>
      (cluster.map (fun r => r.getD j 0)).sum / (cluster.length : ℝ))

/-- The k-means update step: each cluster's center becomes the
unit-normalized mean of its members; an empty cluster is reseeded to a
randomly chosen input vector, unit-normalized. -/
def updateCenters (r : Rng) (vectors : List (List ℝ)) (labels : List ℕ)
    (k it : ℕ) : List (List ℝ) :=
  (List.range k).map (fun idx =>
    let cluster := ((vectors.zip labels).filter (fun p => p.2 == idx)).map Prod.fst
    if cluster = [] then unit_vector (vectors.getD (r.choice it idx vectors.length) [])
    else unit_vector (meanRows cluster))

/-- The `for _ in range(max_iter)` loop of `kmeans`: recompute labels,
stop as soon as they repeat, otherwise update the centers and recurse. -/
def kmeansLoop (r : Rng) (vectors : List (List ℝ)) (k : ℕ) :
    List ℕ → List (List ℝ) → ℕ → ℕ → List ℕ
  | labels, _, _, 0 => labels
  | labels, centers, it, fuel+1 =>
    if vectors.map (assignOne centers k) = labels then labels
    else kmeansLoop r vectors k (vectors.map (assignOne centers k))
      (updateCenters r vectors (vectors.map (assignOne centers k)) k it) (it + 1) fuel

/-- Source `kmeans`: empty input returns the empty labelling; otherwise `k` is
clamped to the number of vectors, centers start as a random
sample of the input (unit-normalized) and the Lloyd loop runs for at
most `maxIter` rounds starting from the all-zero labelling.

When the clamped `k` is `0` (and at least one loop iteration runs) the
Python source raises `ValueError` — `min()` over the empty `range(0)` —
which is modelled by `none`. -/
def kmeans (r : Rng) (vectors : List (List ℝ)) (k maxIter : ℕ) : Option (List ℕ) :=
  if vectors = [] then some []
  else
    let keff := Nat.min k vectors.length
    if keff = 0 ∧ maxIter ≠ 0 then none
    else
      let centers := (r.sample vectors.length keff).map (fun i => unit_vector (vectors.getD i []))
      some (kmeansLoop r vectors keff (List.replicate vectors.length 0) centers 0 maxIter)

/-- The comparison used to model Python's stable descending
`sorted(range(len(v)), key=lambda i: v[i], reverse=True)`: index `i`
comes no later than index `j` iff its value is larger, or the values are
equal and `i ≤ j`.  On distinct indices this relation is a linear
order, and the stable descending sort is its unique sorted
permutation. -/
def pyDescBy (v : List ℝ) (i j : ℕ) : Bool :=
  decide (v.getD j 0 < v.getD i 0 ∨ (v.getD i 0 = v.getD j 0 ∧ i ≤ j))

/-- Models `sorted(range(n), key=lambda i: v[i], reverse=True)` (stable). -/
def sortIndicesDesc (v : List ℝ) (n : ℕ) : List ℕ :=
  (List.range n).mergeSort (pyDescBy v)

/-- Source `top_signature`: take the `limit` best feature indices by descending
value (stable), drop those with non-positive value, and return their
display names. -/
def top_signature (vector : List ℝ) (display_names : List String) (limit : ℕ) : List String :=
  let ordered := sortIndicesDesc vector display_names.length
  ((ordered.take limit).filter (fun i => decide (0 < vector.getD i 0))).map
    (fun i => display_names.getD i "")

/-- Models `info.get("common") or info.get("scientific") or code`. -/
def displayName (taxonomy : String → Option TaxonInfo) (code : String) : String :=
  match taxonomy code with
  | none => code
  | some t => if t.common ≠ "" then t.common
    else if t.scientific ≠ "" then t.scientific else code

/-- Source `build_display_names`: at species level resolve codes to common or
scientific names; other levels keep the feature values themselves. -/
def build_display_names (level : Level) (level_names : List String)
    (taxonomy : String → Option TaxonInfo) : List String :=
  if level = Level.species then level_names.map (displayName taxonomy) else level_names

/-- One entry of the cluster summary mapping. -/
structure ClusterSummary where
  municipios : List String
  signature : List String
  size : ℕ

/-- Models `sorted(label for label in set(labels) if label is not None)`. -/
def sortedLabels (labels : List (Option ℕ)) : List ℕ :=
  ((labels.filterMap id).dedup).mergeSort (fun a b => decide (a ≤ b))

/-- Source `summarize_clusters`: for each distinct assigned label in ascending
order, the member region names (in input order), the top-3 signature of
the mean member vector, and the member count. -/
def summarize_clusters (municipios : List Municipio) (labels : List (Option ℕ))
    (normalized : List (List ℝ)) (level_names : List String) :
    List (ℕ × ClusterSummary) :=
  (sortedLabels labels).map (fun cluster =>
    let indices := (labels.enum.filter (fun p => p.2 == some cluster)).map Prod.fst
    let cluster_rows := indices.map (fun idx => normalized.getD idx [])
    let means := if cluster_rows = [] then List.replicate level_names.length 0
      else (List.range level_names.length).map (fun j =>
        (cluster_rows.map (fun r => r.getD j 0)).sum / (cluster_rows.length : ℝ))
    let ordered := sortIndicesDesc means level_names.length
    let signature := ((ordered.take 3).filter (fun i => decide (0 < means.getD i 0))).map
      (fun i => level_names.getD i "")
    (cluster,
      (⟨indices.map (fun idx => (municipios.getD idx ⟨"", "", []⟩).name),
        signature, indices.length⟩ : ClusterSummary)))

/-- Models `[idx for idx, total in enumerate(row_totals) if total >= min_species]`. -/
def eligibleIndices (row_totals : List ℝ) (min_species : ℕ) : List ℕ :=
  (row_totals.enum.filter (fun p => decide ((min_species : ℝ) ≤ p.2))).map Prod.fst

/-- Source `assign_clusters`: the orchestrator.  Builds the feature matrix and
weighted rows over all regions, filters regions by raw total evidence,
runs k-means on the eligible rows only (`none` propagates the k-means
error case), scatters the labels back by original index, normalizes all
weighted rows, and produces per-region signatures (empty for unlabelled
regions) and per-cluster summaries. -/
def assign_clusters (r : Rng) (municipios : List Municipio)
    (taxonomy : String → Option TaxonInfo) (level : Level)
    (cluster_count min_species : ℕ) (shrink_strength : ℝ) :
    Option (List (Option ℕ) × List (List ℝ) × List String ×
      List (ℕ × ClusterSummary) × List (List String)) :=
  let fm := build_feature_matrix municipios taxonomy level
  let ws := apply_tfidf_shrinkage fm.1 shrink_strength
  let display_names := build_display_names level fm.2 taxonomy
  let elig := eligibleIndices ws.2 min_species
  let eligible_rows := elig.map (fun idx => ws.1.getD idx [])
  let labelsOpt : Option (List (Option ℕ)) :=
    if eligible_rows = [] then some (List.replicate municipios.length none)
    else (kmeans r eligible_rows cluster_count 50).map (fun els =>
      (elig.zip els).foldl (fun acc p => acc.set p.1 (some p.2))
        (List.replicate municipios.length none))
  labelsOpt.map (fun labels =>
    let normalized := ws.1.map unit_vector
    let signatures := List.zipWith (fun lab row =>
        match lab with
        | none => ([] : List String)
        | some _ => top_signature row display_names 3) labels normalized
    (labels, normalized, fm.2,
      summarize_clusters municipios labels normalized display_names, signatures))

/-- A concrete random stream used to instantiate theorems: it draws the
first `k` indices for a sample and index `0` for a choice (any valid
stream works for the facts proved here). -/
def takeRng : Rng :=
  ⟨fun _ k => List.range k, fun _ _ _ => 0⟩

/-- A region with a single observed species (used as concrete input). -/
def muniOneSpecies : Municipio := ⟨"A", "a", ["x"]⟩

/-- A region with two observations of one species (raw total 2). -/
def muniTwoObs : Municipio := ⟨"A", "b", ["y", "y"]⟩

/-- A region with one observation, sharing the name of `muniTwoObs`. -/
def muniDupName : Municipio := ⟨"A", "c", ["x"]⟩

/-- An empty taxonomy: every lookup misses (used as concrete input). -/
def tax0 : String → Option TaxonInfo := fun _ => none

end

/-! ### Basic helper lemmas -/

theorem sqMagnitude_nonneg (row : List ℝ) : 0 ≤ sqMagnitude row := by
  apply List.sum_nonneg
  intro x hx
  obtain ⟨v, _, rfl⟩ := List.mem_map.mp hx
  exact mul_self_nonneg v

theorem dotList_self (v : List ℝ) : dotList v v = sqMagnitude v := by
  induction v with
  | nil => rfl
  | cons a v ih => simp [dotList, sqMagnitude, ih]

/-- Claim C9: `cosine_distance(v, v) == 0` for every vector `v` of nonzero
magnitude; `cosine_distance(a, b) == 1.0` whenever `a` or `b` has zero
magnitude; otherwise `cosine_distance(a, b) = 1 - dot(a,b) / (|a| * |b|)`. -/
theorem cosine_distance_spec :
    (∀ v : List ℝ, Real.sqrt (sqMagnitude v) ≠ 0 → cosine_distance v v = 0) ∧
    (∀ a b : List ℝ, Real.sqrt (sqMagnitude a) = 0 ∨ Real.sqrt (sqMagnitude b) = 0 →
      cosine_distance a b = 1) ∧
    (∀ a b : List ℝ, Real.sqrt (sqMagnitude a) ≠ 0 → Real.sqrt (sqMagnitude b) ≠ 0 →
      cosine_distance a b =
        1 - dotList a b / (Real.sqrt (sqMagnitude a) * Real.sqrt (sqMagnitude b))) := by
  refine ⟨?_, ?_, ?_⟩
  · intro v hv
    have hs : sqMagnitude v ≠ 0 := by
      intro h
      exact hv (by rw [h, Real.sqrt_zero])
    rw [cosine_distance, if_neg (by simp [hv]), dotList_self,
      Real.mul_self_sqrt (sqMagnitude_nonneg v), div_self hs, sub_self]
  · intro a b h
    rw [cosine_distance, if_pos h]
  · intro a b ha hb
    rw [cosine_distance, if_neg (by simp [ha, hb])]

/-- Witness for C9 at the concrete vector `[1, 0]`. -/
theorem cosine_distance_spec_witness :
    Real.sqrt (sqMagnitude [(1:ℝ), 0]) ≠ 0 ∧ cosine_distance [(1:ℝ), 0] [(1:ℝ), 0] = 0 := by
  have h : Real.sqrt (sqMagnitude [(1:ℝ), 0]) ≠ 0 := by
    have : sqMagnitude [(1:ℝ), 0] = 1 := by simp [sqMagnitude]
    rw [this, Real.sqrt_one]
    norm_num
  exact ⟨h, cosine_distance_spec.1 _ h⟩

/-- Claim C4: `kmeans` is deterministic: two calls with the same random
stream (the Python source re-seeds the global generator with the constant
seed 0 on every call, so the stream is the same fixed one each time),
identical input vectors and identical parameters return identical
results. -/
theorem kmeans_deterministic (r₁ r₂ : Rng) (v₁ v₂ : List (List ℝ)) (k₁ k₂ m₁ m₂ : ℕ)
    (hsample : r₁.sample = r₂.sample) (hchoice : r₁.choice = r₂.choice)
    (hv : v₁ = v₂) (hk : k₁ = k₂) (hm : m₁ = m₂) :
    kmeans r₁ v₁ k₁ m₁ = kmeans r₂ v₂ k₂ m₂ := by
  have h : r₁ = r₂ := by
    cases r₁
    cases r₂
    simp only [Rng.mk.injEq]
    exact ⟨hsample, hchoice⟩
  rw [h, hv, hk, hm]

/-- Witness for C4 at a concrete call. -/
theorem kmeans_deterministic_witness :
    takeRng.sample = takeRng.sample ∧
    kmeans takeRng [[(1:ℝ)]] 1 50 = kmeans takeRng [[(1:ℝ)]] 1 50 :=
  ⟨rfl, kmeans_deterministic takeRng takeRng [[(1:ℝ)]] [[(1:ℝ)]] 1 1 50 50 rfl rfl rfl rfl rfl⟩

/-! ### k-means structure lemmas -/

theorem foldl_min_mem (f : ℕ → ℝ) (l : List ℕ) (b : ℕ) :
    l.foldl (fun best i => if f i < f best then i else best) b = b ∨
      l.foldl (fun best i => if f i < f best then i else best) b ∈ l := by
  induction l generalizing b with
  | nil => exact Or.inl rfl
  | cons a l ih =>
    simp only [List.foldl_cons]
    rcases ih (if f a < f b then a else b) with h | h
    · rw [h]
      by_cases hfa : f a < f b
      · rw [if_pos hfa]
        exact Or.inr (List.mem_cons_self a l)
      · rw [if_neg hfa]
        exact Or.inl rfl
    · exact Or.inr (List.mem_cons_of_mem a h)

theorem argminIdx_lt (f : ℕ → ℝ) (k : ℕ) (hk : 0 < k) : argminIdx f k < k := by
  rcases foldl_min_mem f (List.range k) 0 with h | h
  · rw [argminIdx, h]
    exact hk
  · exact List.mem_range.mp h

theorem assignOne_lt (centers : List (List ℝ)) (k : ℕ) (v : List ℝ) (hk : 0 < k) :
    assignOne centers k v < k :=
  argminIdx_lt _ k hk

theorem kmeansLoop_spec (r : Rng) (vectors : List (List ℝ)) (k : ℕ) (hk : 0 < k) :
    ∀ (fuel : ℕ) (labels : List ℕ) (centers : List (List ℝ)) (it : ℕ),
      labels.length = vectors.length → (∀ l ∈ labels, l < k) →
      (kmeansLoop r vectors k labels centers it fuel).length = vectors.length ∧
      ∀ l ∈ kmeansLoop r vectors k labels centers it fuel, l < k := by
  intro fuel
  induction fuel with
  | zero => exact fun labels centers it h1 h2 => ⟨h1, h2⟩
  | succ n ih =>
    intro labels centers it h1 h2
    by_cases h : vectors.map (assignOne centers k) = labels
    · rw [kmeansLoop, if_pos h]
      exact ⟨h1, h2⟩
    · rw [kmeansLoop, if_neg h]
      apply ih
      · exact List.length_map _ _
      · intro l hl
        obtain ⟨v, _, rfl⟩ := List.mem_map.mp hl
        exact assignOne_lt centers k v hk

theorem kmeans_spec (r : Rng) (vectors : List (List ℝ)) (k maxIter : ℕ) (hk : 1 ≤ k) :
    ∃ labels, kmeans r vectors k maxIter = some labels ∧
      labels.length = vectors.length ∧ ∀ l ∈ labels, l < Nat.min k vectors.length := by
  by_cases hv : vectors = []
  · subst hv
    exact ⟨[], by simp [kmeans], rfl, by simp⟩
  · have hn : 0 < vectors.length := List.length_pos.mpr hv
    have hkeff : 0 < Nat.min k vectors.length := lt_min_iff.mpr ⟨hk, hn⟩
    refine ⟨_, ?_, kmeansLoop_spec r vectors (Nat.min k vectors.length) hkeff maxIter
      (List.replicate vectors.length 0)
      ((r.sample vectors.length (Nat.min k vectors.length)).map
        (fun i => unit_vector (vectors.getD i []))) 0
      (List.length_replicate _ _)
      (fun l hl => (List.eq_of_mem_replicate hl) ▸ hkeff)⟩
    have hcond : ¬(Nat.min k vectors.length = 0 ∧ maxIter ≠ 0) :=
      fun hcon => absurd hcon.1 (Nat.pos_iff_ne_zero.mp hkeff)
    simp only [kmeans, if_neg hv]
    rw [if_neg hcond]

/-- Claim C2, counterexample: the claim quantifies over every `k ≤ len(vectors)`,
but at `k = 0` with one input vector the source raises `ValueError`
(`min()` of the empty `range(0)` inside the assignment step), modelled
here by the `none` result: no list of labels is returned. -/
theorem kmeans_k_zero_cex :
    (0:ℕ) ≤ [[(1:ℝ)]].length ∧ kmeans takeRng [[(1:ℝ)]] 0 50 = none :=
  ⟨Nat.zero_le _, by simp [kmeans]⟩

/-- Claim C2, amended: for any `k` with `1 ≤ k`, `kmeans(vectors, k)`
returns exactly `len(vectors)` labels, each in `[0, effective_k)` with
`effective_k = min(k, len(vectors))`, and for empty input the result is
the empty list.  (At `k = 0` with nonempty input the source raises
instead of returning labels, hence the `1 ≤ k` proviso.) -/
theorem kmeans_labels_range (r : Rng) (vectors : List (List ℝ)) (k maxIter : ℕ) (hk : 1 ≤ k) :
    ∃ labels, kmeans r vectors k maxIter = some labels ∧
      labels.length = vectors.length ∧
      (∀ l ∈ labels, l < Nat.min k vectors.length) ∧
      (vectors = [] → labels = []) := by
  obtain ⟨ls, h1, h2, h3⟩ := kmeans_spec r vectors k maxIter hk
  refine ⟨ls, h1, h2, h3, fun hv => ?_⟩
  rw [hv] at h2
  exact List.length_eq_zero.mp h2

/-- Witness for C2 (amended) at `k = 1`, empty input. -/
theorem kmeans_labels_range_witness :
    1 ≤ 1 ∧ ∃ labels, kmeans takeRng ([] : List (List ℝ)) 1 50 = some labels ∧
      labels.length = ([] : List (List ℝ)).length ∧
      (∀ l ∈ labels, l < Nat.min 1 ([] : List (List ℝ)).length) ∧
      (([] : List (List ℝ)) = [] → labels = []) :=
  ⟨le_refl 1, kmeans_labels_range takeRng [] 1 50 (le_refl 1)⟩

theorem foldl_argmin_stay (f : ℕ → ℝ) (l : List ℕ) (h : ∀ i ∈ l, ¬ f i < f 0) :
    l.foldl (fun best i => if f i < f best then i else best) 0 = 0 := by
  induction l with
  | nil => rfl
  | cons a l ih =>
    simp only [List.foldl_cons, if_neg (h a (List.mem_cons_self a l))]
    exact ih (fun i hi => h i (List.mem_cons_of_mem a hi))

theorem argminIdx_const (f : ℕ → ℝ) (k : ℕ) (hf : ∀ i, i < k → f i = f 0) :
    argminIdx f k = 0 := by
  apply foldl_argmin_stay
  intro i hi
  rw [hf i (List.mem_range.mp hi)]
  exact lt_irrefl _

/-- Claim C7, counterexample: an eligible set of exactly 3 regions whose
weighted vectors all coincide (e.g. three regions with identical
composition): with requested `cluster_count = 8` the clamp gives
`effective_k = 3`, but all three vectors are assigned to cluster 0 in
the very first iteration and the loop converges immediately, so only 1
distinct label appears, not 3. -/
theorem kmeans_three_identical_cex :
    ([[(1:ℝ)], [1], [1]] : List (List ℝ)).length = 3 ∧
    kmeans takeRng [[(1:ℝ)], [1], [1]] 8 50 = some [0, 0, 0] ∧
    ([0, 0, 0] : List ℕ).dedup.length = 1 := by
  refine ⟨rfl, ?_, by decide⟩
  have hv : ([[(1:ℝ)], [1], [1]] : List (List ℝ)) ≠ [] := by simp
  have hlen : ([[(1:ℝ)], [1], [1]] : List (List ℝ)).length = 3 := rfl
  have hmin : Nat.min 8 3 = 3 := rfl
  have hcenters : (takeRng.sample 3 3).map
      (fun i => unit_vector (([[(1:ℝ)], [1], [1]] : List (List ℝ)).getD i [])) =
      [unit_vector [1], unit_vector [1], unit_vector [1]] := rfl
  have h0 : assignOne [unit_vector [(1:ℝ)], unit_vector [1], unit_vector [1]] 3 [(1:ℝ)] = 0 := by
    apply argminIdx_const
    intro i hi
    interval_cases i <;> rfl
  have hmap : ([[(1:ℝ)], [1], [1]] : List (List ℝ)).map
      (assignOne [unit_vector [(1:ℝ)], unit_vector [1], unit_vector [1]] 3) =
      List.replicate 3 0 := by
    rw [List.map_cons, List.map_cons, List.map_cons, List.map_nil, h0]
    rfl
  simp only [kmeans, if_neg hv, hlen, hmin]
  rw [if_neg (by decide : ¬((3:ℕ) = 0 ∧ (50:ℕ) ≠ 0)), hcenters,
    show (50:ℕ) = 49 + 1 from rfl, kmeansLoop, if_pos hmap]
  rfl

/-- Claim C7, amended: on an eligible set of exactly 3 regions with
requested `cluster_count = 8`, the clamp yields `effective_k = 3` and the
returned labels are exactly 3 labels, each in `[0, 3)` — hence at most 3
distinct values appear, but not necessarily exactly 3 (see the
counterexample with identical vectors). -/
theorem kmeans_clamp_spec (r : Rng) (vectors : List (List ℝ)) (h3 : vectors.length = 3) :
    Nat.min 8 vectors.length = 3 ∧
    ∃ labels, kmeans r vectors 8 50 = some labels ∧ labels.length = 3 ∧
      (∀ l ∈ labels, l < 3) ∧ labels.dedup.length ≤ 3 := by
  have hmin : Nat.min 8 vectors.length = 3 := by rw [h3]; rfl
  obtain ⟨ls, h1, h2, hlt⟩ := kmeans_spec r vectors 8 50 (by norm_num)
  refine ⟨hmin, ls, h1, by rw [h2, h3], fun l hl => hmin ▸ hlt l hl, ?_⟩
  have hsub : ls.dedup ⊆ [0, 1, 2] := by
    intro x hx
    have hxlt : x < 3 := hmin ▸ hlt x (List.mem_dedup.mp hx)
    interval_cases x <;> simp
  have := (List.subperm_of_subset (List.nodup_dedup ls) hsub).length_le
  simpa using this

/-- Witness for C7 (amended) at three concrete identical vectors. -/
theorem kmeans_clamp_spec_witness :
    ([[(1:ℝ)], [1], [1]] : List (List ℝ)).length = 3 ∧
    (Nat.min 8 ([[(1:ℝ)], [1], [1]] : List (List ℝ)).length = 3 ∧
    ∃ labels, kmeans takeRng [[(1:ℝ)], [1], [1]] 8 50 = some labels ∧ labels.length = 3 ∧
      (∀ l ∈ labels, l < 3) ∧ labels.dedup.length ≤ 3) :=
  ⟨rfl, kmeans_clamp_spec takeRng [[(1:ℝ)], [1], [1]] rfl⟩

/-! ### Signature extraction (`top_signature`) -/

theorem pyDescBy_trans (v : List ℝ) : ∀ a b c : ℕ,
    pyDescBy v a b → pyDescBy v b c → pyDescBy v a c := by
  intro a b c h1 h2
  simp only [pyDescBy, decide_eq_true_eq] at h1 h2 ⊢
  rcases h1 with h1 | ⟨h1e, h1le⟩ <;> rcases h2 with h2 | ⟨h2e, h2le⟩
  · exact Or.inl (by linarith)
  · exact Or.inl (by rw [← h2e]; exact h1)
  · exact Or.inl (by rw [h1e]; exact h2)
  · exact Or.inr ⟨h1e.trans h2e, h1le.trans h2le⟩

theorem pyDescBy_total (v : List ℝ) : ∀ a b : ℕ, pyDescBy v a b || pyDescBy v b a := by
  intro a b
  simp only [pyDescBy, Bool.or_eq_true, decide_eq_true_eq]
  rcases lt_trichotomy (v.getD a 0) (v.getD b 0) with h | h | h
  · exact Or.inr (Or.inl h)
  · rcases le_total a b with hab | hab
    · exact Or.inl (Or.inr ⟨h, hab⟩)
    · exact Or.inr (Or.inr ⟨h.symm, hab⟩)
  · exact Or.inl (Or.inl h)

theorem sortIndicesDesc_pairwise (v : List ℝ) (n : ℕ) :
    (sortIndicesDesc v n).Pairwise (fun i j => v.getD j 0 < v.getD i 0 ∨
      (v.getD i 0 = v.getD j 0 ∧ i < j)) := by
  have hs : (sortIndicesDesc v n).Pairwise (fun a b => pyDescBy v a b) :=
    List.sorted_mergeSort (pyDescBy_trans v) (pyDescBy_total v) (List.range n)
  have hnd : (sortIndicesDesc v n).Nodup :=
    ((List.mergeSort_perm (List.range n) (pyDescBy v)).symm).nodup (List.nodup_range n)
  refine (hs.and hnd).imp ?_
  intro a b hab
  obtain ⟨h1, hne⟩ := hab
  simp only [pyDescBy, decide_eq_true_eq] at h1
  rcases h1 with h1 | ⟨he, hle⟩
  · exact Or.inl h1
  · exact Or.inr ⟨he, lt_of_le_of_ne hle hne⟩

/-- Claim C8: for a vector and display-name list of equal length and any
limit, `top_signature` returns (the display names of) at most `limit`
feature indices, all with positive vector value, listed in descending
value order with ties broken by ascending original index. -/
theorem top_signature_spec (vector : List ℝ) (display_names : List String) (limit : ℕ)
    (hlen : vector.length = display_names.length) :
    ∃ idxs : List ℕ,
      top_signature vector display_names limit =
        idxs.map (fun i => display_names.getD i "") ∧
      idxs.length ≤ limit ∧
      (∀ i ∈ idxs, 0 < vector.getD i 0) ∧
      idxs.Pairwise (fun i j => vector.getD j 0 < vector.getD i 0 ∨
        (vector.getD i 0 = vector.getD j 0 ∧ i < j)) := by
  refine ⟨((sortIndicesDesc vector display_names.length).take limit).filter
      (fun i => decide (0 < vector.getD i 0)), rfl, ?_, ?_, ?_⟩
  · exact le_trans (List.length_filter_le _ _)
      (le_trans (le_of_eq (List.length_take _ _)) (min_le_left _ _))
  · intro i hi
    have := (List.mem_filter.mp hi).2
    simpa using this
  · exact List.Pairwise.sublist ((List.filter_sublist _).trans (List.take_sublist _ _))
      (sortIndicesDesc_pairwise vector display_names.length)

/-- Witness for C8 at the concrete input `([2], ["a"])`. -/
theorem top_signature_spec_witness :
    ([(2:ℝ)] : List ℝ).length = (["a"] : List String).length ∧
    ∃ idxs : List ℕ,
      top_signature [(2:ℝ)] ["a"] 3 = idxs.map (fun i => (["a"] : List String).getD i "") ∧
      idxs.length ≤ 3 ∧
      (∀ i ∈ idxs, 0 < ([(2:ℝ)] : List ℝ).getD i 0) ∧
      idxs.Pairwise (fun i j => ([(2:ℝ)] : List ℝ).getD j 0 < ([(2:ℝ)] : List ℝ).getD i 0 ∨
        (([(2:ℝ)] : List ℝ).getD i 0 = ([(2:ℝ)] : List ℝ).getD j 0 ∧ i < j)) :=
  ⟨rfl, top_signature_spec [(2:ℝ)] ["a"] 3 rfl⟩

/-! ### Weighting transform lemmas -/

theorem list_sum_map_add {α : Type} (l : List α) (f g : α → ℝ) :
    (l.map (fun x => f x + g x)).sum = (l.map f).sum + (l.map g).sum := by
  induction l with
  | nil => simp
  | cons a l ih => simp only [List.map_cons, List.sum_cons, ih]; ring

theorem sum_range_getD (r : List ℝ) :
    ((List.range r.length).map (fun j => r.getD j 0)).sum = r.sum := by
  induction r with
  | nil => simp
  | cons a r ih =>
    rw [List.length_cons, List.range_succ_eq_map]
    simp only [List.map_cons, List.getD_cons_zero, List.map_map, List.sum_cons]
    have : ((List.range r.length).map ((fun j => (a :: r).getD j 0) ∘ Nat.succ)) =
        (List.range r.length).map (fun j => r.getD j 0) :=
      List.map_congr_left (fun j _ => by simp)
    rw [this, ih]

theorem colSum_cons (r : List ℝ) (rest : List (List ℝ)) (j : ℕ) :
    colSum (r :: rest) j = r.getD j 0 + colSum rest j := by
  simp [colSum]

theorem grand_total_eq (rows : List (List ℝ)) (d : ℕ)
    (hrect : ∀ row ∈ rows, row.length = d) :
    ((List.range d).map (colSum rows)).sum = (rows.map List.sum).sum := by
  induction rows with
  | nil =>
    rw [List.map_congr_left (fun j _ => by simp [colSum] :
      ∀ j ∈ List.range d, colSum ([] : List (List ℝ)) j = 0)]
    simp
  | cons r rest ih =>
    have hr : r.length = d := hrect r (List.mem_cons_self r rest)
    have hrest : ∀ row ∈ rest, row.length = d :=
      fun row h => hrect row (List.mem_cons_of_mem r h)
    calc ((List.range d).map (colSum (r :: rest))).sum
        = ((List.range d).map (fun j => r.getD j 0 + colSum rest j)).sum := by
          rw [List.map_congr_left (fun j _ => colSum_cons r rest j)]
      _ = ((List.range d).map (fun j => r.getD j 0)).sum +
            ((List.range d).map (colSum rest)).sum := list_sum_map_add _ _ _
      _ = r.sum + (rest.map List.sum).sum := by
          rw [ih hrest, ← hr, sum_range_getD]
      _ = ((r :: rest).map List.sum).sum := by simp

theorem compute_global_distribution_getD (rows : List (List ℝ)) (d j : ℕ)
    (hrect : ∀ row ∈ rows, row.length = d) (hne : rows ≠ []) (hj : j < d)
    (hpos : 0 < (rows.map List.sum).sum) :
    (compute_global_distribution rows).getD j 0 =
      colSum rows j / (rows.map List.sum).sum := by
  match rows, hne with
  | r0 :: rest, _ =>
    have hr0 : r0.length = d := hrect r0 (List.mem_cons_self r0 rest)
    have hgrand : ((List.range r0.length).map (colSum (r0 :: rest))).sum =
        ((r0 :: rest).map List.sum).sum := by
      rw [hr0]; exact grand_total_eq _ d hrect
    have hnotle : ¬ ((List.range r0.length).map (colSum (r0 :: rest))).sum ≤ 0 := by
      rw [hgrand]; exact not_le.mpr hpos
    rw [compute_global_distribution, if_neg hnotle]
    have hjlen : j < ((List.range r0.length).map (colSum (r0 :: rest))).length := by
      simpa [hr0] using hj
    rw [List.getD_eq_getElem _ _ (by simpa using hjlen), List.getElem_map,
      List.getElem_map, List.getElem_range, hgrand]

theorem compute_global_distribution_length (rows : List (List ℝ)) (r0 : List ℝ)
    (rest : List (List ℝ)) (h : rows = r0 :: rest) :
    (compute_global_distribution rows).length = r0.length := by
  subst h
  rw [compute_global_distribution]
  split <;> simp

theorem compute_idf_getD (rows : List (List ℝ)) (d j : ℕ)
    (hrect : ∀ row ∈ rows, row.length = d) (hne : rows ≠ []) (hj : j < d) :
    (compute_idf rows).getD j 0 =
      Real.log ((1 + (rows.length : ℝ)) / (1 + (dfCount rows j : ℝ))) + 1 := by
  match rows, hne with
  | r0 :: rest, _ =>
    have hr0 : r0.length = d := hrect r0 (List.mem_cons_self r0 rest)
    rw [compute_idf]
    have hjlen : j < (List.range r0.length).length := by simpa [hr0] using hj
    rw [List.getD_eq_getElem _ _ (by simpa using hjlen), List.getElem_map,
      List.getElem_range]

theorem normalize_rows_getD (rows : List (List ℝ)) (i : ℕ) (hi : i < rows.length) :
    (normalize_rows rows).getD i [] =
      if (rows.getD i []).sum ≤ 0 then List.replicate (rows.getD i []).length 0
      else (rows.getD i []).map (fun v => v / (rows.getD i []).sum) := by
  rw [normalize_rows, List.getD_eq_getElem _ _ (by simpa using hi), List.getElem_map,
    List.getD_eq_getElem _ _ hi]

theorem row_totals_getD (rows : List (List ℝ)) (s : ℝ) (i : ℕ) (hi : i < rows.length) :
    (apply_tfidf_shrinkage rows s).2.getD i 0 = (rows.getD i []).sum := by
  have h1 : (apply_tfidf_shrinkage rows s).2 = rows.map List.sum := rfl
  rw [h1, List.getD_eq_getElem _ _ (by simpa using hi), List.getElem_map,
    List.getD_eq_getElem _ _ hi]

theorem apply_tfidf_row (rows : List (List ℝ)) (s : ℝ) (i : ℕ) (hi : i < rows.length) :
    (apply_tfidf_shrinkage rows s).1.getD i [] =
      if (rows.getD i []).sum ≤ 0 then
        List.replicate ((normalize_rows rows).getD i []).length 0
      else
        (if 0 < s ∧ compute_global_distribution rows ≠ [] then
            ((normalize_rows rows).getD i []).enum.map (fun q =>
              ((rows.getD i []).sum / ((rows.getD i []).sum + s)) * q.2 +
                (1 - (rows.getD i []).sum / ((rows.getD i []).sum + s)) *
                (compute_global_distribution rows).getD q.1 0)
          else (normalize_rows rows).getD i []).enum.map
            (fun q => q.2 * (compute_idf rows).getD q.1 0) := by
  have hnlen : (normalize_rows rows).length = rows.length := by simp [normalize_rows]
  have hzlen : ((rows.map List.sum).zip (normalize_rows rows)).length = rows.length := by
    simp [hnlen]
  have h1 : (apply_tfidf_shrinkage rows s).1 =
      ((rows.map List.sum).zip (normalize_rows rows)).map (fun p =>
        if p.1 ≤ 0 then List.replicate p.2.length 0
        else
          (if 0 < s ∧ compute_global_distribution rows ≠ [] then
              p.2.enum.map (fun q =>
                (p.1 / (p.1 + s)) * q.2 + (1 - p.1 / (p.1 + s)) *
                  (compute_global_distribution rows).getD q.1 0)
            else p.2).enum.map (fun q => q.2 * (compute_idf rows).getD q.1 0)) := rfl
  have hni : i < (normalize_rows rows).length := by
    rw [hnlen]
    exact hi
  rw [h1, List.getD_eq_getElem _ _ (by rw [List.length_map, hzlen]; exact hi),
    List.getElem_map, List.getElem_zip, List.getElem_map,
    show rows[i] = rows.getD i [] from (List.getD_eq_getElem rows [] hi).symm,
    show (normalize_rows rows)[i] = (normalize_rows rows).getD i [] from
      (List.getD_eq_getElem (normalize_rows rows) [] hni).symm]

theorem enum_map_getD (l : List ℝ) (f : ℕ × ℝ → ℝ) (j : ℕ) (dflt : ℝ)
    (hj : j < l.length) :
    (l.enum.map f).getD j dflt = f (j, l.getD j 0) := by
  have hje : j < l.enum.length := by simpa using hj
  rw [List.getD_eq_getElem _ _ (by simpa using hj), List.getElem_map]
  have h : l.enum[j] = (j, l.getD j 0) := by
    rw [List.getD_eq_getElem _ _ hj]
    simp [List.enum]
  rw [h]

/-- Claim C3: for every region `i` with raw total `t > 0`, `apply_weighting`
produces `weighted[i][j] = (w * tf[i][j] + (1 - w) * global[j]) * idf[j]`
with `w = t / (t + s)` when `s > 0`, and `weighted[i][j] = tf[i][j] * idf[j]`
when `s = 0`, where `tf` is the row normalized to sum 1,
`global[j]` is the column sum over the grand total, and
`idf[j] = ln((1 + N) / (1 + df_j)) + 1` with `N` the number of regions and
`df_j` the number of regions with nonzero raw count for feature `j`; a
region with raw total 0 gets an all-zero weighted row, and `row_totals`
are the raw row sums. -/
theorem apply_tfidf_shrinkage_spec (rows : List (List ℝ)) (s : ℝ) (d i j : ℕ)
    (hrect : ∀ row ∈ rows, row.length = d)
    (hnn : ∀ row ∈ rows, ∀ x ∈ row, 0 ≤ x)
    (hi : i < rows.length) (hj : j < d) :
    (0 < (rows.getD i []).sum → 0 < s →
      ((apply_tfidf_shrinkage rows s).1.getD i []).getD j 0 =
        ((rows.getD i []).sum / ((rows.getD i []).sum + s) *
            ((rows.getD i []).getD j 0 / (rows.getD i []).sum) +
          (1 - (rows.getD i []).sum / ((rows.getD i []).sum + s)) *
            (colSum rows j / (rows.map List.sum).sum)) *
        (Real.log ((1 + (rows.length : ℝ)) / (1 + (dfCount rows j : ℝ))) + 1)) ∧
    (0 < (rows.getD i []).sum → s = 0 →
      ((apply_tfidf_shrinkage rows s).1.getD i []).getD j 0 =
        ((rows.getD i []).getD j 0 / (rows.getD i []).sum) *
        (Real.log ((1 + (rows.length : ℝ)) / (1 + (dfCount rows j : ℝ))) + 1)) ∧
    ((rows.getD i []).sum = 0 →
      (apply_tfidf_shrinkage rows s).1.getD i [] = List.replicate d 0) ∧
    (apply_tfidf_shrinkage rows s).2.getD i 0 = (rows.getD i []).sum := by
  have hrowmem : rows.getD i [] ∈ rows := by
    rw [List.getD_eq_getElem _ _ hi]
    exact List.getElem_mem _
  have hrlen : (rows.getD i []).length = d := hrect _ hrowmem
  have hne : rows ≠ [] := List.ne_nil_of_length_pos (lt_of_le_of_lt (Nat.zero_le i) hi)
  have hdpos : 0 < d := lt_of_le_of_lt (Nat.zero_le j) hj
  have hgd : (compute_global_distribution rows).length = d := by
    obtain ⟨r0, rest, hrw⟩ := List.exists_cons_of_ne_nil hne
    rw [compute_global_distribution_length rows r0 rest hrw]
    exact hrect r0 (hrw ▸ List.mem_cons_self r0 rest)
  have hgdne : compute_global_distribution rows ≠ [] :=
    List.ne_nil_of_length_pos (by rw [hgd]; exact hdpos)
  have hidf : (compute_idf rows).getD j 0 =
      Real.log ((1 + (rows.length : ℝ)) / (1 + (dfCount rows j : ℝ))) + 1 :=
    compute_idf_getD rows d j hrect hne hj
  refine ⟨?_, ?_, ?_, row_totals_getD rows s i hi⟩
  · intro ht hspos
    have hnotle : ¬ (rows.getD i []).sum ≤ 0 := not_le.mpr ht
    have htf : (normalize_rows rows).getD i [] =
        (rows.getD i []).map (fun v => v / (rows.getD i []).sum) := by
      rw [normalize_rows_getD rows i hi, if_neg hnotle]
    have htflen : ((normalize_rows rows).getD i []).length = d := by
      rw [htf, List.length_map, hrlen]
    have htfj : ((normalize_rows rows).getD i []).getD j 0 =
        (rows.getD i []).getD j 0 / (rows.getD i []).sum := by
      rw [htf, List.getD_eq_getElem _ _ (by rw [List.length_map, hrlen]; exact hj),
        List.getElem_map]
      congr 1
      exact (List.getD_eq_getElem _ _ (by rw [hrlen]; exact hj)).symm
    have hsumnn : ∀ x ∈ rows.map List.sum, 0 ≤ x := by
      intro x hx
      obtain ⟨row, hrowm, rfl⟩ := List.mem_map.mp hx
      exact List.sum_nonneg (fun y hy => hnn row hrowm y hy)
    have hpos : 0 < (rows.map List.sum).sum := by
      have hmem : (rows.getD i []).sum ∈ rows.map List.sum :=
        List.mem_map.mpr ⟨_, hrowmem, rfl⟩
      exact lt_of_lt_of_le ht (List.single_le_sum hsumnn _ hmem)
    have hgdj : (compute_global_distribution rows).getD j 0 =
        colSum rows j / (rows.map List.sum).sum :=
      compute_global_distribution_getD rows d j hrect hne hj hpos
    rw [apply_tfidf_row rows s i hi, if_neg hnotle, if_pos ⟨hspos, hgdne⟩,
      enum_map_getD _ _ j 0 (by rw [List.length_map, List.enum_length]; exact htflen ▸ hj),
      enum_map_getD _ _ j 0 (htflen ▸ hj), htfj, hgdj, hidf]
  · intro ht hs0
    have hnotle : ¬ (rows.getD i []).sum ≤ 0 := not_le.mpr ht
    have htf : (normalize_rows rows).getD i [] =
        (rows.getD i []).map (fun v => v / (rows.getD i []).sum) := by
      rw [normalize_rows_getD rows i hi, if_neg hnotle]
    have htflen : ((normalize_rows rows).getD i []).length = d := by
      rw [htf, List.length_map, hrlen]
    have htfj : ((normalize_rows rows).getD i []).getD j 0 =
        (rows.getD i []).getD j 0 / (rows.getD i []).sum := by
      rw [htf, List.getD_eq_getElem _ _ (by rw [List.length_map, hrlen]; exact hj),
        List.getElem_map]
      congr 1
      exact (List.getD_eq_getElem _ _ (by rw [hrlen]; exact hj)).symm
    have hnocond : ¬ (0 < s ∧ compute_global_distribution rows ≠ []) := by
      rw [hs0]
      exact fun hc => lt_irrefl 0 hc.1
    rw [apply_tfidf_row rows s i hi, if_neg hnotle, if_neg hnocond,
      enum_map_getD _ _ j 0 (htflen ▸ hj), htfj, hidf]
  · intro ht
    have hle : (rows.getD i []).sum ≤ 0 := le_of_eq ht
    have htf : (normalize_rows rows).getD i [] =
        List.replicate (rows.getD i []).length 0 := by
      rw [normalize_rows_getD rows i hi, if_pos hle]
    rw [apply_tfidf_row rows s i hi, if_pos hle, htf, List.length_replicate, hrlen]

/-- Witness for C3 at `rows = [[1]]`, `s = 20`, `i = j = 0`. -/
theorem apply_tfidf_shrinkage_spec_witness :
    (∀ row ∈ ([[(1:ℝ)]] : List (List ℝ)), row.length = 1) ∧
    (∀ row ∈ ([[(1:ℝ)]] : List (List ℝ)), ∀ x ∈ row, 0 ≤ x) ∧
    ((0:ℕ) < 1) ∧
    ((0 < ([(1:ℝ)] : List ℝ).sum → 0 < (20:ℝ) →
      ((apply_tfidf_shrinkage [[(1:ℝ)]] 20).1.getD 0 []).getD 0 0 =
        (([(1:ℝ)] : List ℝ).sum / (([(1:ℝ)] : List ℝ).sum + 20) *
            (([(1:ℝ)] : List ℝ).getD 0 0 / ([(1:ℝ)] : List ℝ).sum) +
          (1 - ([(1:ℝ)] : List ℝ).sum / (([(1:ℝ)] : List ℝ).sum + 20)) *
            (colSum [[(1:ℝ)]] 0 / (([[(1:ℝ)]] : List (List ℝ)).map List.sum).sum)) *
        (Real.log ((1 + (([[(1:ℝ)]] : List (List ℝ)).length : ℝ)) /
          (1 + (dfCount [[(1:ℝ)]] 0 : ℝ))) + 1)) ∧
    (0 < ([(1:ℝ)] : List ℝ).sum → (20:ℝ) = 0 →
      ((apply_tfidf_shrinkage [[(1:ℝ)]] 20).1.getD 0 []).getD 0 0 =
        (([(1:ℝ)] : List ℝ).getD 0 0 / ([(1:ℝ)] : List ℝ).sum) *
        (Real.log ((1 + (([[(1:ℝ)]] : List (List ℝ)).length : ℝ)) /
          (1 + (dfCount [[(1:ℝ)]] 0 : ℝ))) + 1)) ∧
    (([(1:ℝ)] : List ℝ).sum = 0 →
      (apply_tfidf_shrinkage [[(1:ℝ)]] 20).1.getD 0 [] = List.replicate 1 0) ∧
    (apply_tfidf_shrinkage [[(1:ℝ)]] 20).2.getD 0 0 = ([(1:ℝ)] : List ℝ).sum) := by
  refine ⟨?_, ?_, Nat.one_pos, apply_tfidf_shrinkage_spec [[(1:ℝ)]] 20 1 0 0 ?_ ?_ ?_ ?_⟩
  · intro row h
    rw [List.mem_singleton.mp h]
    rfl
  · intro row h x hx
    rw [List.mem_singleton.mp h] at hx
    rw [List.mem_singleton.mp hx]
    norm_num
  · intro row h
    rw [List.mem_singleton.mp h]
    rfl
  · intro row h x hx
    rw [List.mem_singleton.mp h] at hx
    rw [List.mem_singleton.mp hx]
    norm_num
  · exact Nat.one_pos
  · exact Nat.one_pos

/-! ### Non-negativity invariants and the cosine distance range -/

theorem getD_nonneg (l : List ℝ) (h : ∀ x ∈ l, 0 ≤ x) (j : ℕ) : 0 ≤ l.getD j 0 := by
  by_cases hj : j < l.length
  · rw [List.getD_eq_getElem _ _ hj]
    exact h _ (List.getElem_mem _)
  · rw [List.getD_eq_default _ _ (not_lt.mp hj)]

theorem colSum_nonneg (rows : List (List ℝ))
    (hnn : ∀ row ∈ rows, ∀ x ∈ row, 0 ≤ x) (j : ℕ) : 0 ≤ colSum rows j := by
  apply List.sum_nonneg
  intro x hx
  obtain ⟨r, hr, rfl⟩ := List.mem_map.mp hx
  exact getD_nonneg r (hnn r hr) j

theorem compute_idf_one_le (rows : List (List ℝ)) : ∀ x ∈ compute_idf rows, 1 ≤ x := by
  intro x hx
  cases rows with
  | nil => simp [compute_idf] at hx
  | cons r0 rest =>
    rw [compute_idf] at hx
    obtain ⟨j, _, rfl⟩ := List.mem_map.mp hx
    have hdf : (dfCount (r0 :: rest) j : ℝ) ≤ ((r0 :: rest).length : ℝ) := by
      exact_mod_cast List.length_filter_le _ _
    have hlog : 0 ≤ Real.log ((1 + ((r0 :: rest).length : ℝ)) /
        (1 + (dfCount (r0 :: rest) j : ℝ))) := by
      apply Real.log_nonneg
      rw [le_div_iff (by positivity)]
      linarith
    linarith

theorem compute_global_distribution_nonneg (rows : List (List ℝ))
    (hnn : ∀ row ∈ rows, ∀ x ∈ row, 0 ≤ x) :
    ∀ y ∈ compute_global_distribution rows, 0 ≤ y := by
  intro y hy
  cases rows with
  | nil => simp [compute_global_distribution] at hy
  | cons r0 rest =>
    rw [compute_global_distribution] at hy
    by_cases hg : ((List.range r0.length).map (colSum (r0 :: rest))).sum ≤ 0
    · rw [if_pos hg] at hy
      rw [List.eq_of_mem_replicate hy]
    · rw [if_neg hg] at hy
      obtain ⟨v, hv, rfl⟩ := List.mem_map.mp hy
      obtain ⟨jj, _, rfl⟩ := List.mem_map.mp hv
      exact div_nonneg (colSum_nonneg _ hnn jj) (le_of_lt (not_le.mp hg))

theorem normalize_rows_nonneg (rows : List (List ℝ))
    (hnn : ∀ row ∈ rows, ∀ x ∈ row, 0 ≤ x) :
    ∀ row ∈ normalize_rows rows, ∀ x ∈ row, 0 ≤ x := by
  intro row hrow x hx
  rw [normalize_rows] at hrow
  obtain ⟨row0, hrow0, rfl⟩ := List.mem_map.mp hrow
  by_cases hsum : row0.sum ≤ 0
  · rw [if_pos hsum] at hx
    rw [List.eq_of_mem_replicate hx]
  · rw [if_neg hsum] at hx
    obtain ⟨v, hv, rfl⟩ := List.mem_map.mp hx
    exact div_nonneg (hnn row0 hrow0 v hv) (le_of_lt (not_le.mp hsum))

theorem apply_tfidf_nonneg (rows : List (List ℝ)) (s : ℝ)
    (hnn : ∀ row ∈ rows, ∀ x ∈ row, 0 ≤ x) (hs : 0 ≤ s) :
    ∀ row ∈ (apply_tfidf_shrinkage rows s).1, ∀ x ∈ row, 0 ≤ x := by
  intro row hrow x hx
  have hrepr : (apply_tfidf_shrinkage rows s).1 =
      ((rows.map List.sum).zip (normalize_rows rows)).map (fun p =>
        if p.1 ≤ 0 then List.replicate p.2.length 0
        else
          (if 0 < s ∧ compute_global_distribution rows ≠ [] then
              p.2.enum.map (fun q =>
                (p.1 / (p.1 + s)) * q.2 + (1 - p.1 / (p.1 + s)) *
                  (compute_global_distribution rows).getD q.1 0)
            else p.2).enum.map (fun q => q.2 * (compute_idf rows).getD q.1 0)) := rfl
  rw [hrepr] at hrow
  obtain ⟨p, hp, rfl⟩ := List.mem_map.mp hrow
  obtain ⟨_, hp2⟩ := List.of_mem_zip hp
  have htfnn : ∀ y ∈ p.2, 0 ≤ y := normalize_rows_nonneg rows hnn p.2 hp2
  have hidfnn : ∀ j, 0 ≤ (compute_idf rows).getD j 0 :=
    fun j => getD_nonneg _ (fun y hy => le_trans zero_le_one (compute_idf_one_le rows y hy)) j
  by_cases h1 : p.1 ≤ 0
  · rw [if_pos h1] at hx
    rw [List.eq_of_mem_replicate hx]
  · rw [if_neg h1] at hx
    have hppos : 0 < p.1 := not_le.mp h1
    obtain ⟨q, hq, rfl⟩ := List.mem_map.mp hx
    have hqsnd : ∀ (l : List ℝ) (qq : ℕ × ℝ), qq ∈ l.enum → qq.2 ∈ l := by
      intro l qq hql
      exact List.get?_mem (List.mem_enum_iff_get?.mp hql)
    apply mul_nonneg _ (hidfnn q.1)
    by_cases hcond : 0 < s ∧ compute_global_distribution rows ≠ []
    · rw [if_pos hcond] at hq
      have hq2 := hqsnd _ _ hq
      obtain ⟨q1, hq1, hq1eq⟩ := List.mem_map.mp hq2
      rw [← hq1eq]
      have hw1 : 0 ≤ p.1 / (p.1 + s) := by positivity
      have hw2 : 0 ≤ 1 - p.1 / (p.1 + s) := by
        rw [sub_nonneg, div_le_one (by linarith)]
        linarith
      have hq1snd : q1.2 ∈ p.2 := hqsnd _ _ hq1
      apply add_nonneg
      · exact mul_nonneg hw1 (htfnn _ hq1snd)
      · exact mul_nonneg hw2 (getD_nonneg _
          (compute_global_distribution_nonneg rows hnn) q1.1)
    · rw [if_neg hcond] at hq
      exact htfnn _ (hqsnd _ _ hq)

theorem unit_vector_nonneg (row : List ℝ) (h : ∀ x ∈ row, 0 ≤ x) :
    ∀ x ∈ unit_vector row, 0 ≤ x := by
  intro x hx
  rw [unit_vector] at hx
  by_cases hm : Real.sqrt (sqMagnitude row) ≤ 0
  · rw [if_pos hm] at hx
    rw [List.eq_of_mem_replicate hx]
  · rw [if_neg hm] at hx
    obtain ⟨v, hv, rfl⟩ := List.mem_map.mp hx
    exact div_nonneg (h v hv) (Real.sqrt_nonneg _)

theorem dotList_nonneg (a : List ℝ) (ha : ∀ x ∈ a, 0 ≤ x) :
    ∀ b, (∀ x ∈ b, 0 ≤ x) → 0 ≤ dotList a b := by
  induction a with
  | nil => intro b _; simp [dotList]
  | cons x a ih =>
    intro b hb
    cases b with
    | nil => simp [dotList]
    | cons y b =>
      have : dotList (x :: a) (y :: b) = x * y + dotList a b := by simp [dotList]
      rw [this]
      apply add_nonneg
      · exact mul_nonneg (ha x (List.mem_cons_self x a)) (hb y (List.mem_cons_self y b))
      · exact ih (fun z hz => ha z (List.mem_cons_of_mem x hz)) b
          (fun z hz => hb z (List.mem_cons_of_mem y hz))

theorem dotList_eq_sum (a : List ℝ) : ∀ b : List ℝ,
    dotList a b = ∑ x ∈ Finset.range (min a.length b.length), a.getD x 0 * b.getD x 0 := by
  induction a with
  | nil => intro b; simp [dotList]
  | cons x a ih =>
    intro b
    cases b with
    | nil => simp [dotList]
    | cons y b =>
      have h1 : dotList (x :: a) (y :: b) = x * y + dotList a b := by simp [dotList]
      have h2 : min (x :: a).length (y :: b).length = min a.length b.length + 1 := by
        simp [List.length_cons, Nat.succ_min_succ]
      rw [h1, ih b, h2, Finset.sum_range_succ']
      simp only [List.getD_cons_succ, List.getD_cons_zero]
      ring

theorem sqMagnitude_eq_sum (a : List ℝ) :
    sqMagnitude a = ∑ x ∈ Finset.range a.length, (a.getD x 0) ^ 2 := by
  induction a with
  | nil => simp [sqMagnitude]
  | cons x a ih =>
    have h1 : sqMagnitude (x :: a) = x * x + sqMagnitude a := by simp [sqMagnitude]
    rw [h1, ih, List.length_cons, Finset.sum_range_succ']
    simp only [List.getD_cons_succ, List.getD_cons_zero]
    ring

theorem dotList_le_sqrt (a b : List ℝ) :
    dotList a b ≤ Real.sqrt (sqMagnitude a) * Real.sqrt (sqMagnitude b) := by
  have hA : (∑ x ∈ Finset.range (min a.length b.length), (a.getD x 0) ^ 2) ≤ sqMagnitude a := by
    rw [sqMagnitude_eq_sum]
    apply Finset.sum_le_sum_of_subset_of_nonneg
    · exact Finset.range_subset.mpr (min_le_left _ _)
    · intro i _ _
      positivity
  have hB : (∑ x ∈ Finset.range (min a.length b.length), (b.getD x 0) ^ 2) ≤ sqMagnitude b := by
    rw [sqMagnitude_eq_sum]
    apply Finset.sum_le_sum_of_subset_of_nonneg
    · exact Finset.range_subset.mpr (min_le_right _ _)
    · intro i _ _
      positivity
  have hAnn : (0:ℝ) ≤ ∑ x ∈ Finset.range (min a.length b.length), (a.getD x 0) ^ 2 :=
    Finset.sum_nonneg (fun i _ => sq_nonneg _)
  have hBnn : (0:ℝ) ≤ ∑ x ∈ Finset.range (min a.length b.length), (b.getD x 0) ^ 2 :=
    Finset.sum_nonneg (fun i _ => sq_nonneg _)
  calc dotList a b
      ≤ |dotList a b| := le_abs_self _
    _ = Real.sqrt ((dotList a b) ^ 2) := (Real.sqrt_sq_eq_abs _).symm
    _ ≤ Real.sqrt ((∑ x ∈ Finset.range (min a.length b.length), (a.getD x 0) ^ 2) *
          (∑ x ∈ Finset.range (min a.length b.length), (b.getD x 0) ^ 2)) := by
        apply Real.sqrt_le_sqrt
        rw [dotList_eq_sum]
        exact Finset.sum_mul_sq_le_sq_mul_sq _ _ _
    _ ≤ Real.sqrt (sqMagnitude a * sqMagnitude b) := by
        apply Real.sqrt_le_sqrt
        exact mul_le_mul hA hB hBnn (le_trans hAnn hA)
    _ = Real.sqrt (sqMagnitude a) * Real.sqrt (sqMagnitude b) :=
        Real.sqrt_mul (sqMagnitude_nonneg a) _

theorem cosine_distance_mem_unit (a b : List ℝ)
    (ha : ∀ x ∈ a, 0 ≤ x) (hb : ∀ x ∈ b, 0 ≤ x) :
    0 ≤ cosine_distance a b ∧ cosine_distance a b ≤ 1 := by
  rw [cosine_distance]
  by_cases h : Real.sqrt (sqMagnitude a) = 0 ∨ Real.sqrt (sqMagnitude b) = 0
  · rw [if_pos h]
    norm_num
  · rw [if_neg h]
    push_neg at h
    have hapos : 0 < Real.sqrt (sqMagnitude a) :=
      lt_of_le_of_ne (Real.sqrt_nonneg _) (Ne.symm h.1)
    have hbpos : 0 < Real.sqrt (sqMagnitude b) :=
      lt_of_le_of_ne (Real.sqrt_nonneg _) (Ne.symm h.2)
    have hprod : 0 < Real.sqrt (sqMagnitude a) * Real.sqrt (sqMagnitude b) :=
      mul_pos hapos hbpos
    constructor
    · rw [sub_nonneg]
      exact (div_le_one hprod).mpr (dotList_le_sqrt a b)
    · exact sub_le_self _ (div_nonneg (dotList_nonneg a ha b hb) (le_of_lt hprod))

/-- Claim C10: with non-negative raw count rows (and non-negative shrink
strength), every IDF value is at least 1, every weighted entry is
non-negative, every unit-normalized entry is non-negative, and the
cosine distance between any two pipeline vectors lies in `[0, 1]`. -/
theorem pipeline_nonneg_spec (rows : List (List ℝ)) (s : ℝ)
    (hnn : ∀ row ∈ rows, ∀ x ∈ row, 0 ≤ x) (hs : 0 ≤ s) :
    (∀ x ∈ compute_idf rows, 1 ≤ x) ∧
    (∀ row ∈ (apply_tfidf_shrinkage rows s).1, ∀ x ∈ row, 0 ≤ x) ∧
    (∀ row ∈ (apply_tfidf_shrinkage rows s).1, ∀ x ∈ unit_vector row, 0 ≤ x) ∧
    (∀ a ∈ (apply_tfidf_shrinkage rows s).1.map unit_vector,
      ∀ b ∈ (apply_tfidf_shrinkage rows s).1.map unit_vector,
      0 ≤ cosine_distance a b ∧ cosine_distance a b ≤ 1) := by
  refine ⟨compute_idf_one_le rows, apply_tfidf_nonneg rows s hnn hs, ?_, ?_⟩
  · intro row hrow
    exact unit_vector_nonneg row (apply_tfidf_nonneg rows s hnn hs row hrow)
  · intro a ha b hb
    obtain ⟨ra, hra, rfl⟩ := List.mem_map.mp ha
    obtain ⟨rb, hrb, rfl⟩ := List.mem_map.mp hb
    exact cosine_distance_mem_unit _ _
      (unit_vector_nonneg ra (apply_tfidf_nonneg rows s hnn hs ra hra))
      (unit_vector_nonneg rb (apply_tfidf_nonneg rows s hnn hs rb hrb))

/-- Witness for C10 at `rows = [[1]]`, `s = 20`. -/
theorem pipeline_nonneg_spec_witness :
    (∀ row ∈ ([[(1:ℝ)]] : List (List ℝ)), ∀ x ∈ row, 0 ≤ x) ∧ (0:ℝ) ≤ 20 ∧
    ((∀ x ∈ compute_idf [[(1:ℝ)]], 1 ≤ x) ∧
    (∀ row ∈ (apply_tfidf_shrinkage [[(1:ℝ)]] 20).1, ∀ x ∈ row, 0 ≤ x) ∧
    (∀ row ∈ (apply_tfidf_shrinkage [[(1:ℝ)]] 20).1, ∀ x ∈ unit_vector row, 0 ≤ x) ∧
    (∀ a ∈ (apply_tfidf_shrinkage [[(1:ℝ)]] 20).1.map unit_vector,
      ∀ b ∈ (apply_tfidf_shrinkage [[(1:ℝ)]] 20).1.map unit_vector,
      0 ≤ cosine_distance a b ∧ cosine_distance a b ≤ 1)) := by
  have hnn : ∀ row ∈ ([[(1:ℝ)]] : List (List ℝ)), ∀ x ∈ row, 0 ≤ x := by
    intro row h x hx
    rw [List.mem_singleton.mp h] at hx
    rw [List.mem_singleton.mp hx]
    norm_num
  exact ⟨hnn, by norm_num, pipeline_nonneg_spec [[(1:ℝ)]] 20 hnn (by norm_num)⟩

/-! ### Eligibility filter, label scattering and feature-matrix lemmas -/

theorem enumFrom_filter_map_fst (q : ℝ → Bool) : ∀ (l : List ℝ) (k : ℕ),
    ((l.enumFrom k).filter (fun p => q p.2)).map Prod.fst =
      (List.range' k l.length).filter (fun i => q (l.getD (i - k) 0)) := by
  intro l
  induction l with
  | nil => intro k; rfl
  | cons a l ih =>
    intro k
    rw [List.enumFrom_cons, List.length_cons, List.range'_succ]
    rw [List.filter_cons, List.filter_cons]
    have hhead : q ((k, a).2 : ℝ) = q ((a :: l).getD (k - k) 0) := by
      rw [Nat.sub_self]
      rfl
    have htail : ((l.enumFrom (k + 1)).filter (fun p => q p.2)).map Prod.fst =
        (List.range' (k + 1) l.length).filter (fun i => q ((a :: l).getD (i - k) 0)) := by
      rw [ih (k + 1)]
      apply List.filter_congr
      intro i hi
      obtain ⟨j, _, rfl⟩ := List.mem_range'.mp hi
      have h1 : k + 1 + 1 * j - (k + 1) = j := by omega
      have h2 : k + 1 + 1 * j - k = j + 1 := by omega
      rw [h1, h2, List.getD_cons_succ]
    by_cases hq : q a
    · rw [if_pos hq, if_pos (by rw [← hhead]; exact hq)]
      rw [List.map_cons, htail]
    · rw [if_neg hq, if_neg (by rw [← hhead]; exact hq)]
      exact htail

theorem eligibleIndices_eq (tot : List ℝ) (m : ℕ) :
    eligibleIndices tot m =
      (List.range tot.length).filter (fun i => decide ((m:ℝ) ≤ tot.getD i 0)) := by
  have h := enumFrom_filter_map_fst (fun x => decide ((m:ℝ) ≤ x)) tot 0
  rw [eligibleIndices]
  rw [show tot.enum = tot.enumFrom 0 from rfl, h, List.range_eq_range']
  apply List.filter_congr
  intro i _
  rw [Nat.sub_zero]

theorem mem_eligibleIndices (tot : List ℝ) (m i : ℕ) :
    i ∈ eligibleIndices tot m ↔ i < tot.length ∧ (m:ℝ) ≤ tot.getD i 0 := by
  rw [eligibleIndices_eq]
  simp [List.mem_filter, List.mem_range]

theorem eligibleIndices_sorted (tot : List ℝ) (m : ℕ) :
    (eligibleIndices tot m).Pairwise (· < ·) := by
  rw [eligibleIndices_eq]
  exact List.Pairwise.sublist (List.filter_sublist _) (List.pairwise_lt_range _)

theorem eligibleIndices_nodup (tot : List ℝ) (m : ℕ) : (eligibleIndices tot m).Nodup :=
  (eligibleIndices_sorted tot m).imp ne_of_lt

theorem scatter_length (pairs : List (ℕ × ℕ)) : ∀ init : List (Option ℕ),
    (pairs.foldl (fun acc p => acc.set p.1 (some p.2)) init).length = init.length := by
  induction pairs with
  | nil => intro init; rfl
  | cons p pairs ih =>
    intro init
    rw [List.foldl_cons, ih, List.length_set]

theorem scatter_getD_not_mem (pairs : List (ℕ × ℕ)) : ∀ (init : List (Option ℕ)) (i : ℕ),
    i ∉ pairs.map Prod.fst →
    (pairs.foldl (fun acc p => acc.set p.1 (some p.2)) init).getD i none =
      init.getD i none := by
  induction pairs with
  | nil => intro init i _; rfl
  | cons p pairs ih =>
    intro init i hi
    have hne : p.1 ≠ i := fun h => hi (by rw [List.map_cons, ← h]; exact List.mem_cons_self _ _)
    rw [List.foldl_cons, ih _ i (fun h => hi (by rw [List.map_cons]; exact List.mem_cons_of_mem _ h))]
    simp only [List.getD_eq_getElem?_getD, List.getElem?_set_ne hne]

theorem scatter_getD_mem (pairs : List (ℕ × ℕ)) : ∀ init : List (Option ℕ),
    (pairs.map Prod.fst).Nodup → (∀ p ∈ pairs, p.1 < init.length) →
    ∀ p ∈ pairs,
      (pairs.foldl (fun acc q => acc.set q.1 (some q.2)) init).getD p.1 none = some p.2 := by
  induction pairs with
  | nil =>
    intro init _ _ p hp
    simp at hp
  | cons q pairs ih =>
    intro init hnd hlt p hp
    rw [List.map_cons, List.nodup_cons] at hnd
    rw [List.foldl_cons]
    rcases List.mem_cons.mp hp with rfl | hp'
    · rw [scatter_getD_not_mem pairs _ _ hnd.1]
      have hlen : p.1 < init.length := hlt p (List.mem_cons_self _ _)
      simp only [List.getD_eq_getElem?_getD]
      rw [List.getElem?_set_self (by simpa using hlen)]
      rfl
    · exact ih (init.set q.1 (some q.2)) hnd.2
        (fun p' hp'' => by rw [List.length_set]; exact hlt p' (List.mem_cons_of_mem _ hp''))
        p hp'

theorem getD_replicate_none (n i : ℕ) :
    (List.replicate n (none : Option ℕ)).getD i none = none := by
  simp only [List.getD_eq_getElem?_getD, List.getD_replicate_default_eq]

theorem indicator_sum (names : List String) (v : String) (hnd : names.Nodup)
    (hv : v ∈ names) :
    (names.map (fun nm => if nm = v then (1:ℝ) else 0)).sum = 1 := by
  induction names with
  | nil => cases hv
  | cons a names ih =>
    rw [List.nodup_cons] at hnd
    rw [List.map_cons, List.sum_cons]
    rcases List.mem_cons.mp hv with rfl | hv'
    · rw [if_pos rfl]
      have hzero : (names.map (fun nm => if nm = v then (1:ℝ) else 0)).sum = 0 := by
        apply List.sum_eq_zero
        intro x hx
        obtain ⟨nm, hnm, rfl⟩ := List.mem_map.mp hx
        rw [if_neg (fun h => hnd.1 (by rw [← h]; exact hnm))]
      rw [hzero]
      ring
    · have hne : a ≠ v := fun h => hnd.1 (by rw [h]; exact hv')
      rw [if_neg hne, ih hnd.2 hv', zero_add]

theorem count_sum (names : List String) : ∀ vals : List String, names.Nodup →
    (∀ v ∈ vals, v ∈ names) →
    (names.map (fun nm => ((vals.count nm : ℕ) : ℝ))).sum = (vals.length : ℝ) := by
  intro vals
  induction vals with
  | nil =>
    intro _ _
    rw [List.map_congr_left (fun nm _ => by simp :
      ∀ nm ∈ names, ((List.count nm [] : ℕ) : ℝ) = 0)]
    simp
  | cons v vals ih =>
    intro hnd hsub
    have hstep : (names.map (fun nm => (((v :: vals).count nm : ℕ) : ℝ))).sum =
        (names.map (fun nm => ((vals.count nm : ℕ) : ℝ) +
          (if nm = v then (1:ℝ) else 0))).sum := by
      refine congrArg List.sum (List.map_congr_left ?_)
      intro nm _
      rw [List.count_cons]
      by_cases h : nm = v
      · simp [h]
      · have h' : ¬ v = nm := fun hh => h hh.symm
        simp [h, h']
    rw [hstep, list_sum_map_add, ih hnd (fun u hu => hsub u (List.mem_cons_of_mem _ hu)),
      indicator_sum names v hnd (hsub v (List.mem_cons_self _ _)), List.length_cons]
    push_cast
    ring

theorem sortedDedup_nodup (l : List String) : (sortedDedup l).Nodup :=
  ((List.mergeSort_perm l.dedup _).symm).nodup (List.nodup_dedup l)

theorem mem_sortedDedup (l : List String) (x : String) : x ∈ sortedDedup l ↔ x ∈ l := by
  rw [sortedDedup, (List.mergeSort_perm l.dedup _).mem_iff]
  exact List.mem_dedup

theorem build_rows_length (municipios : List Municipio)
    (taxonomy : String → Option TaxonInfo) (level : Level) :
    (build_feature_matrix municipios taxonomy level).1.length = municipios.length := by
  show ((municipios.map (regionValues taxonomy level)).map _).length = _
  rw [List.length_map, List.length_map]

theorem row_totals_length (rows : List (List ℝ)) (s : ℝ) :
    (apply_tfidf_shrinkage rows s).2.length = rows.length := by
  show (rows.map List.sum).length = _
  rw [List.length_map]

theorem weighted_length (rows : List (List ℝ)) (s : ℝ) :
    (apply_tfidf_shrinkage rows s).1.length = rows.length := by
  show (((rows.map List.sum).zip (normalize_rows rows)).map _).length = _
  rw [List.length_map, List.length_zip, List.length_map]
  show min rows.length (normalize_rows rows).length = _
  rw [show (normalize_rows rows).length = rows.length from List.length_map _ _]
  exact min_self _

theorem build_row_total (municipios : List Municipio)
    (taxonomy : String → Option TaxonInfo) (level : Level) (i : ℕ)
    (hi : i < municipios.length) :
    ((build_feature_matrix municipios taxonomy level).1.getD i []).sum =
      ((municipios.getD i ⟨"", "", []⟩).species.length : ℝ) := by
  have h1 : (build_feature_matrix municipios taxonomy level).1 =
      (municipios.map (regionValues taxonomy level)).map (fun vals =>
        (build_feature_matrix municipios taxonomy level).2.map
          (fun nm => ((vals.count nm : ℕ) : ℝ))) := rfl
  have hmem : municipios.getD i ⟨"", "", []⟩ ∈ municipios := by
    rw [List.getD_eq_getElem _ _ hi]
    exact List.getElem_mem _
  have hnd2 : (build_feature_matrix municipios taxonomy level).2.Nodup :=
    sortedDedup_nodup _
  have hsub : ∀ v ∈ regionValues taxonomy level (municipios.getD i ⟨"", "", []⟩),
      v ∈ (build_feature_matrix municipios taxonomy level).2 := by
    intro v hv
    rw [show (build_feature_matrix municipios taxonomy level).2 =
      sortedDedup ((municipios.map (regionValues taxonomy level)).flatten) from rfl,
      mem_sortedDedup]
    exact List.mem_flatten.mpr ⟨regionValues taxonomy level (municipios.getD i ⟨"", "", []⟩),
      List.mem_map_of_mem _ hmem, hv⟩
  rw [h1, List.getD_eq_getElem _ _ (by rw [List.length_map, List.length_map]; exact hi),
    List.getElem_map, List.getElem_map,
    show municipios[i] = municipios.getD i ⟨"", "", []⟩ from
      (List.getD_eq_getElem _ _ hi).symm,
    count_sum _ _ hnd2 hsub, regionValues, List.length_map]

theorem assign_clusters_eq_some (r : Rng) (municipios : List Municipio)
    (taxonomy : String → Option TaxonInfo) (level : Level)
    (cluster_count min_species : ℕ) (s : ℝ) (hk : 1 ≤ cluster_count) :
    ∃ (els : List ℕ) (labels : List (Option ℕ)),
      kmeans r ((eligibleIndices
          (apply_tfidf_shrinkage (build_feature_matrix municipios taxonomy level).1 s).2
          min_species).map (fun idx =>
            (apply_tfidf_shrinkage (build_feature_matrix municipios taxonomy level).1 s).1.getD
              idx [])) cluster_count 50 = some els ∧
      els.length = (eligibleIndices
          (apply_tfidf_shrinkage (build_feature_matrix municipios taxonomy level).1 s).2
          min_species).length ∧
      labels = ((eligibleIndices
          (apply_tfidf_shrinkage (build_feature_matrix municipios taxonomy level).1 s).2
          min_species).zip els).foldl (fun acc p => acc.set p.1 (some p.2))
          (List.replicate municipios.length none) ∧
      assign_clusters r municipios taxonomy level cluster_count min_species s =
        some (labels,
          (apply_tfidf_shrinkage (build_feature_matrix municipios taxonomy level).1 s).1.map
            unit_vector,
          (build_feature_matrix municipios taxonomy level).2,
          summarize_clusters municipios labels
            ((apply_tfidf_shrinkage (build_feature_matrix municipios taxonomy level).1 s).1.map
              unit_vector)
            (build_display_names level (build_feature_matrix municipios taxonomy level).2
              taxonomy),
          List.zipWith (fun lab row =>
            match lab with
            | none => ([] : List String)
            | some _ => top_signature row
                (build_display_names level (build_feature_matrix municipios taxonomy level).2
                  taxonomy) 3) labels
            ((apply_tfidf_shrinkage (build_feature_matrix municipios taxonomy level).1 s).1.map
              unit_vector)) := by
  by_cases helig : (eligibleIndices
      (apply_tfidf_shrinkage (build_feature_matrix municipios taxonomy level).1 s).2
      min_species).map (fun idx =>
        (apply_tfidf_shrinkage (build_feature_matrix municipios taxonomy level).1 s).1.getD
          idx []) = []
  · have helig' : eligibleIndices
        (apply_tfidf_shrinkage (build_feature_matrix municipios taxonomy level).1 s).2
        min_species = [] := List.map_eq_nil.mp helig
    refine ⟨[], List.replicate municipios.length none, ?_, ?_, ?_, ?_⟩
    · rw [helig]
      simp [kmeans]
    · simp [helig']
    · simp [helig']
    · simp only [assign_clusters]
      rw [if_pos helig]
      rfl
  · obtain ⟨els, hk1, hk2, _⟩ := kmeans_spec r _ cluster_count 50 hk
    refine ⟨els, _, hk1, ?_, rfl, ?_⟩
    · rw [hk2, List.length_map]
    · simp only [assign_clusters]
      rw [if_neg helig, hk1]
      rfl

/-- Claim C1: in `assign_clusters`, a region's label is absent iff its raw
total `row_totals[i]` is below `min_evidence`; every region at or above
the threshold receives the k-means label computed on the eligible
subset, mapped back by original index; and a weighted and normalized
vector is produced for every region, including excluded ones. -/
theorem assign_clusters_evidence_filter (r : Rng) (municipios : List Municipio)
    (taxonomy : String → Option TaxonInfo) (level : Level)
    (cluster_count min_species : ℕ) (s : ℝ) (hk : 1 ≤ cluster_count) :
    ∃ (labels : List (Option ℕ)) (normalized : List (List ℝ)) (level_names : List String)
      (summary : List (ℕ × ClusterSummary)) (signatures : List (List String)),
      assign_clusters r municipios taxonomy level cluster_count min_species s =
        some (labels, normalized, level_names, summary, signatures) ∧
      labels.length = municipios.length ∧
      (∀ i, i < municipios.length →
        (labels.getD i none = none ↔
          (apply_tfidf_shrinkage (build_feature_matrix municipios taxonomy level).1 s).2.getD
            i 0 < (min_species : ℝ))) ∧
      (∃ els, kmeans r ((eligibleIndices
            (apply_tfidf_shrinkage (build_feature_matrix municipios taxonomy level).1 s).2
            min_species).map (fun idx =>
              (apply_tfidf_shrinkage (build_feature_matrix municipios taxonomy level).1
                s).1.getD idx [])) cluster_count 50 = some els ∧
        ∀ jpos, jpos < (eligibleIndices
            (apply_tfidf_shrinkage (build_feature_matrix municipios taxonomy level).1 s).2
            min_species).length →
          labels.getD ((eligibleIndices
              (apply_tfidf_shrinkage (build_feature_matrix municipios taxonomy level).1 s).2
              min_species).getD jpos 0) none = some (els.getD jpos 0)) ∧
      normalized.length = municipios.length ∧
      (∀ i, i < municipios.length →
        normalized.getD i [] = unit_vector
          ((apply_tfidf_shrinkage (build_feature_matrix municipios taxonomy level).1 s).1.getD
            i [])) := by
  obtain ⟨els, labels0, hkm, hlen, hlab, hassign⟩ :=
    assign_clusters_eq_some r municipios taxonomy level cluster_count min_species s hk
  have htotlen : (apply_tfidf_shrinkage
      (build_feature_matrix municipios taxonomy level).1 s).2.length = municipios.length := by
    rw [row_totals_length, build_rows_length]
  have hpairs_fst : ((eligibleIndices
      (apply_tfidf_shrinkage (build_feature_matrix municipios taxonomy level).1 s).2
      min_species).zip els).map Prod.fst = eligibleIndices
      (apply_tfidf_shrinkage (build_feature_matrix municipios taxonomy level).1 s).2
      min_species :=
    List.map_fst_zip _ _ (le_of_eq hlen.symm)
  have hnodup_fst : (((eligibleIndices
      (apply_tfidf_shrinkage (build_feature_matrix municipios taxonomy level).1 s).2
      min_species).zip els).map Prod.fst).Nodup := by
    rw [hpairs_fst]
    exact eligibleIndices_nodup _ _
  have hbounds : ∀ p ∈ (eligibleIndices
      (apply_tfidf_shrinkage (build_feature_matrix municipios taxonomy level).1 s).2
      min_species).zip els,
      p.1 < (List.replicate municipios.length (none : Option ℕ)).length := by
    intro p hp
    have h1 : p.1 ∈ eligibleIndices
        (apply_tfidf_shrinkage (build_feature_matrix municipios taxonomy level).1 s).2
        min_species := by
      rw [← hpairs_fst]
      exact List.mem_map_of_mem _ hp
    rw [List.length_replicate, ← htotlen]
    exact ((mem_eligibleIndices _ _ _).mp h1).1
  have hmemlab : ∀ p ∈ (eligibleIndices
      (apply_tfidf_shrinkage (build_feature_matrix municipios taxonomy level).1 s).2
      min_species).zip els,
      labels0.getD p.1 none = some p.2 := by
    intro p hp
    rw [hlab]
    exact scatter_getD_mem _ _ hnodup_fst hbounds p hp
  have hzlen : ((eligibleIndices
      (apply_tfidf_shrinkage (build_feature_matrix municipios taxonomy level).1 s).2
      min_species).zip els).length = (eligibleIndices
      (apply_tfidf_shrinkage (build_feature_matrix municipios taxonomy level).1 s).2
      min_species).length := by
    rw [List.length_zip, hlen, min_self]
  refine ⟨_, _, _, _, _, hassign, ?_, ?_, ⟨els, hkm, ?_⟩, ?_, ?_⟩
  · rw [hlab, scatter_length, List.length_replicate]
  · intro i hi
    constructor
    · intro hnone
      by_contra hnotlt
      push_neg at hnotlt
      have himem : i ∈ eligibleIndices
          (apply_tfidf_shrinkage (build_feature_matrix municipios taxonomy level).1 s).2
          min_species :=
        (mem_eligibleIndices _ _ _).mpr ⟨by rw [htotlen]; exact hi, hnotlt⟩
      obtain ⟨jpos, hj, hji⟩ := List.mem_iff_getElem.mp himem
      have hjels : jpos < els.length := by
        rw [hlen]
        exact hj
      have hp : ((i : ℕ), els[jpos]) ∈ (eligibleIndices
          (apply_tfidf_shrinkage (build_feature_matrix municipios taxonomy level).1 s).2
          min_species).zip els := by
        have hzz := @List.getElem_zip _ _ (eligibleIndices
          (apply_tfidf_shrinkage (build_feature_matrix municipios taxonomy level).1 s).2
          min_species) els jpos (by rw [hzlen]; exact hj)
        rw [hji] at hzz
        rw [← hzz]
        exact List.getElem_mem _
      have hcontra := hmemlab _ hp
      rw [hnone] at hcontra
      cases hcontra
    · intro hlt
      have hnotmem : i ∉ eligibleIndices
          (apply_tfidf_shrinkage (build_feature_matrix municipios taxonomy level).1 s).2
          min_species := fun hmem =>
        absurd ((mem_eligibleIndices _ _ _).mp hmem).2 (not_le.mpr hlt)
      rw [hlab, scatter_getD_not_mem _ _ _ (by rw [hpairs_fst]; exact hnotmem),
        getD_replicate_none]
  · intro jpos hj
    have hjels : jpos < els.length := by
      rw [hlen]
      exact hj
    have hp : ((eligibleIndices
        (apply_tfidf_shrinkage (build_feature_matrix municipios taxonomy level).1 s).2
        min_species)[jpos], els[jpos]) ∈ (eligibleIndices
        (apply_tfidf_shrinkage (build_feature_matrix municipios taxonomy level).1 s).2
        min_species).zip els := by
      have hzz := @List.getElem_zip _ _ (eligibleIndices
        (apply_tfidf_shrinkage (build_feature_matrix municipios taxonomy level).1 s).2
        min_species) els jpos (by rw [hzlen]; exact hj)
      rw [← hzz]
      exact List.getElem_mem _
    have hres := hmemlab _ hp
    rw [show (eligibleIndices
        (apply_tfidf_shrinkage (build_feature_matrix municipios taxonomy level).1 s).2
        min_species).getD jpos 0 = (eligibleIndices
        (apply_tfidf_shrinkage (build_feature_matrix municipios taxonomy level).1 s).2
        min_species)[jpos] from List.getD_eq_getElem _ _ hj,
      show els.getD jpos 0 = els[jpos] from List.getD_eq_getElem _ _ hjels]
    exact hres
  · rw [List.length_map, weighted_length, build_rows_length]
  · intro i hi
    rw [List.getD_eq_getElem _ _
      (by rw [List.length_map, weighted_length, build_rows_length]; exact hi),
      List.getElem_map]
    congr 1
    exact (List.getD_eq_getElem _ _
      (by rw [weighted_length, build_rows_length]; exact hi)).symm

/-- Witness for C1 at a concrete one-region input. -/
theorem assign_clusters_evidence_filter_witness :
    1 ≤ 5 ∧
    ∃ (labels : List (Option ℕ)) (normalized : List (List ℝ)) (level_names : List String)
      (summary : List (ℕ × ClusterSummary)) (signatures : List (List String)),
      assign_clusters takeRng [muniOneSpecies] tax0 Level.species 5 30 20 =
        some (labels, normalized, level_names, summary, signatures) ∧
      labels.length = [muniOneSpecies].length ∧
      (∀ i, i < [muniOneSpecies].length →
        (labels.getD i none = none ↔
          (apply_tfidf_shrinkage (build_feature_matrix [muniOneSpecies] tax0 Level.species).1
            20).2.getD i 0 < ((30 : ℕ) : ℝ))) ∧
      (∃ els, kmeans takeRng ((eligibleIndices
            (apply_tfidf_shrinkage (build_feature_matrix [muniOneSpecies] tax0
              Level.species).1 20).2 30).map (fun idx =>
              (apply_tfidf_shrinkage (build_feature_matrix [muniOneSpecies] tax0
                Level.species).1 20).1.getD idx [])) 5 50 = some els ∧
        ∀ jpos, jpos < (eligibleIndices
            (apply_tfidf_shrinkage (build_feature_matrix [muniOneSpecies] tax0
              Level.species).1 20).2 30).length →
          labels.getD ((eligibleIndices
              (apply_tfidf_shrinkage (build_feature_matrix [muniOneSpecies] tax0
                Level.species).1 20).2 30).getD jpos 0) none = some (els.getD jpos 0)) ∧
      normalized.length = [muniOneSpecies].length ∧
      (∀ i, i < [muniOneSpecies].length →
        normalized.getD i [] = unit_vector
          ((apply_tfidf_shrinkage (build_feature_matrix [muniOneSpecies] tax0
            Level.species).1 20).1.getD i [])) :=
  ⟨by norm_num,
    assign_clusters_evidence_filter takeRng [muniOneSpecies] tax0 Level.species 5 30 20
      (by norm_num)⟩

theorem sig_getD_none (labels : List (Option ℕ)) (normalized : List (List ℝ))
    (display : List String) (i : ℕ) (hi : i < labels.length)
    (hleneq : normalized.length = labels.length)
    (hnone : labels.getD i none = none) :
    (List.zipWith (fun lab row =>
      match lab with
      | none => ([] : List String)
      | some _ => top_signature row display 3) labels normalized).getD i [] = [] := by
  have hzl : (List.zipWith (fun lab row =>
      match lab with
      | none => ([] : List String)
      | some _ => top_signature row display 3) labels normalized).length = labels.length := by
    rw [List.length_zipWith, hleneq, min_self]
  rw [List.getD_eq_getElem _ _ (by rw [hzl]; exact hi), List.getElem_zipWith]
  have hli : labels[i] = none := by
    rw [← List.getD_eq_getElem _ _ hi]
    exact hnone
  rw [hli]

/-- Claim C5, amended: a region with exactly 1 observed species and
`min_evidence = 30` gets an absent label and still appears in
`per_region_signatures` — but with an *empty* signature (the source
appends `[]` for every unlabelled region), not a 1-element one. -/
theorem assign_one_species_absent (r : Rng) (municipios : List Municipio)
    (taxonomy : String → Option TaxonInfo) (level : Level) (cluster_count : ℕ) (s : ℝ)
    (i : ℕ) (hk : 1 ≤ cluster_count) (hi : i < municipios.length)
    (hsp : (municipios.getD i ⟨"", "", []⟩).species.length = 1) :
    ∃ (labels : List (Option ℕ)) (normalized : List (List ℝ)) (level_names : List String)
      (summary : List (ℕ × ClusterSummary)) (signatures : List (List String)),
      assign_clusters r municipios taxonomy level cluster_count 30 s =
        some (labels, normalized, level_names, summary, signatures) ∧
      labels.getD i none = none ∧
      signatures.length = municipios.length ∧
      signatures.getD i [] = [] := by
  obtain ⟨els, labels0, hkm, hlen, hlab, hassign⟩ :=
    assign_clusters_eq_some r municipios taxonomy level cluster_count 30 s hk
  have hrl : i < (build_feature_matrix municipios taxonomy level).1.length := by
    rw [build_rows_length]
    exact hi
  have htot : (apply_tfidf_shrinkage
      (build_feature_matrix municipios taxonomy level).1 s).2.getD i 0 = 1 := by
    rw [row_totals_getD _ _ i hrl, build_row_total _ _ _ i hi, hsp]
    norm_num
  have hlab0len : labels0.length = municipios.length := by
    rw [hlab, scatter_length, List.length_replicate]
  have hnone : labels0.getD i none = none := by
    have hnotmem : i ∉ eligibleIndices (apply_tfidf_shrinkage
        (build_feature_matrix municipios taxonomy level).1 s).2 30 := by
      intro hmem
      have h2 := ((mem_eligibleIndices _ _ _).mp hmem).2
      rw [htot] at h2
      norm_num at h2
    rw [hlab, scatter_getD_not_mem _ _ _ ?_, getD_replicate_none]
    rw [List.map_fst_zip _ _ (le_of_eq hlen.symm)]
    exact hnotmem
  refine ⟨labels0, _, _, _, _, hassign, hnone, ?_, ?_⟩
  · rw [List.length_zipWith, hlab0len, List.length_map, weighted_length,
      build_rows_length, min_self]
  · exact sig_getD_none labels0 _ _ i (by rw [hlab0len]; exact hi)
      (by rw [List.length_map, weighted_length, build_rows_length, hlab0len])
      hnone

/-- Claim C5, counterexample: for the single region `("A", "a", ["x"])`
with one observed species and `min_evidence = 30`, the label is absent
but the per-region signature is the empty list — length 0, not 1 as the
claim states. -/
theorem assign_one_species_cex :
    (assign_clusters takeRng [muniOneSpecies] tax0 Level.species 5 30 20).map
      (fun out => (out.1, out.2.2.2.2)) = some ([none], [[]]) ∧
    ([] : List String).length ≠ 1 := by
  refine ⟨?_, by norm_num⟩
  obtain ⟨els, labels0, hkm, hlen, hlab, hassign⟩ :=
    assign_clusters_eq_some takeRng [muniOneSpecies] tax0 Level.species 5 30 20 (by norm_num)
  have helig : eligibleIndices (apply_tfidf_shrinkage
      (build_feature_matrix [muniOneSpecies] tax0 Level.species).1 20).2 30 = [] := by
    apply List.eq_nil_iff_forall_not_mem.mpr
    intro a ha
    have h := (mem_eligibleIndices _ _ _).mp ha
    have hl : a < 1 := by
      have h1 := h.1
      rwa [row_totals_length, build_rows_length] at h1
    interval_cases a
    have h2 := h.2
    rw [row_totals_getD _ _ 0 (by rw [build_rows_length]; norm_num),
      build_row_total _ _ _ 0 (by norm_num)] at h2
    norm_num [muniOneSpecies] at h2
  rw [helig] at hlab
  have hl0 : labels0 = [none] := by
    rw [hlab]
    rfl
  rw [hassign, hl0]
  rfl

/-- Witness for C5 (amended) at the concrete one-region input. -/
theorem assign_one_species_absent_witness :
    1 ≤ 5 ∧ (0 : ℕ) < [muniOneSpecies].length ∧
    ([muniOneSpecies].getD 0 ⟨"", "", []⟩).species.length = 1 ∧
    ∃ (labels : List (Option ℕ)) (normalized : List (List ℝ)) (level_names : List String)
      (summary : List (ℕ × ClusterSummary)) (signatures : List (List String)),
      assign_clusters takeRng [muniOneSpecies] tax0 Level.species 5 30 20 =
        some (labels, normalized, level_names, summary, signatures) ∧
      labels.getD 0 none = none ∧
      signatures.length = [muniOneSpecies].length ∧
      signatures.getD 0 [] = [] :=
  ⟨by norm_num, by norm_num, rfl,
    assign_one_species_absent takeRng [muniOneSpecies] tax0 Level.species 5 20 0
      (by norm_num) (by norm_num) rfl⟩

/-- Claim C6, amended: provided the region names are pairwise distinct,
every region whose label is absent has an empty per-region signature and
its name appears in no cluster summary's region list.  (Without the
distinctness proviso an excluded region can share its name with a
labelled one, and the shared name then does appear in a summary — see
the counterexample.) -/
theorem assign_excluded_no_summary (r : Rng) (municipios : List Municipio)
    (taxonomy : String → Option TaxonInfo) (level : Level)
    (cluster_count min_species : ℕ) (s : ℝ) (hk : 1 ≤ cluster_count)
    (hnames : (municipios.map Municipio.name).Nodup) (i : ℕ)
    (hi : i < municipios.length) :
    ∀ (labels : List (Option ℕ)) (normalized : List (List ℝ)) (level_names : List String)
      (summary : List (ℕ × ClusterSummary)) (signatures : List (List String)),
      assign_clusters r municipios taxonomy level cluster_count min_species s =
        some (labels, normalized, level_names, summary, signatures) →
      labels.getD i none = none →
      signatures.getD i [] = [] ∧
      ∀ c ∈ summary, (municipios.getD i ⟨"", "", []⟩).name ∉ c.2.municipios := by
  intro labels normalized level_names summary signatures hassign hnone
  obtain ⟨els, labels0, hkm, hlen, hlab, hassign'⟩ :=
    assign_clusters_eq_some r municipios taxonomy level cluster_count min_species s hk
  rw [hassign] at hassign'
  simp only [Option.some.injEq, Prod.mk.injEq] at hassign'
  obtain ⟨h1, h2, h3, h4, h5⟩ := hassign'
  subst h1
  have hlab0len : labels.length = municipios.length := by
    rw [hlab, scatter_length, List.length_replicate]
  constructor
  · rw [h5]
    exact sig_getD_none labels _ _ i (by rw [hlab0len]; exact hi)
      (by rw [List.length_map, weighted_length, build_rows_length, hlab0len]) hnone
  · intro c hc hmemname
    rw [h4, summarize_clusters] at hc
    obtain ⟨cluster, _, rfl⟩ := List.mem_map.mp hc
    obtain ⟨idx, hidx, hnameeq⟩ := List.mem_map.mp hmemname
    obtain ⟨p, hpfil, rfl⟩ := List.mem_map.mp hidx
    have hpf := List.mem_filter.mp hpfil
    have hpeq : p.2 = some cluster := by
      simpa using hpf.2
    have hget := List.mem_enum_iff_get?.mp hpf.1
    have hplt : p.1 < labels.length := by
      by_contra hcon
      rw [List.get?_eq_none.mpr (not_lt.mp hcon)] at hget
      cases hget
    have hlabp : labels.getD p.1 none = some cluster := by
      rw [List.getD_eq_getElem?_getD, ← List.get?_eq_getElem?, hget, hpeq]
      rfl
    have hp1n : p.1 < municipios.length := by
      rw [← hlab0len]
      exact hplt
    have hieq : p.1 = i := by
      have hmp : p.1 < (municipios.map Municipio.name).length := by simpa using hp1n
      have hmi : i < (municipios.map Municipio.name).length := by simpa using hi
      have hmapeq : (municipios.map Municipio.name)[p.1] =
          (municipios.map Municipio.name)[i] := by
        rw [List.getElem_map, List.getElem_map,
          show municipios[p.1] = municipios.getD p.1 ⟨"", "", []⟩ from
            (List.getD_eq_getElem _ _ hp1n).symm,
          show municipios[i] = municipios.getD i ⟨"", "", []⟩ from
            (List.getD_eq_getElem _ _ hi).symm]
        exact hnameeq
      exact (List.Nodup.getElem_inj_iff hnames).mp hmapeq
    rw [hieq, hnone] at hlabp
    cases hlabp

/-- Witness for C6 (amended) at the concrete one-region input. -/
theorem assign_excluded_no_summary_witness :
    1 ≤ 5 ∧ ([muniOneSpecies].map Municipio.name).Nodup ∧
    (0 : ℕ) < [muniOneSpecies].length ∧
    (∀ (labels : List (Option ℕ)) (normalized : List (List ℝ)) (level_names : List String)
      (summary : List (ℕ × ClusterSummary)) (signatures : List (List String)),
      assign_clusters takeRng [muniOneSpecies] tax0 Level.species 5 30 20 =
        some (labels, normalized, level_names, summary, signatures) →
      labels.getD 0 none = none →
      signatures.getD 0 [] = [] ∧
      ∀ c ∈ summary, ([muniOneSpecies].getD 0 ⟨"", "", []⟩).name ∉ c.2.municipios) :=
  ⟨by norm_num, by simp, by norm_num,
    assign_excluded_no_summary takeRng [muniOneSpecies] tax0 Level.species 5 30 20
      (by norm_num) (by simp) 0 (by norm_num)⟩

theorem kmeans_singleton (r : Rng) (v : List ℝ) (k maxIter : ℕ) (hk : 1 ≤ k)
    (hm : 1 ≤ maxIter) : kmeans r [v] k maxIter = some [0] := by
  obtain ⟨m, rfl⟩ := Nat.exists_eq_succ_of_ne_zero (Nat.pos_iff_ne_zero.mp hm)
  have hv : ([v] : List (List ℝ)) ≠ [] := by simp
  have hmin : Nat.min k 1 = 1 := Nat.min_eq_right hk
  simp only [kmeans, if_neg hv]
  rw [show ([v] : List (List ℝ)).length = 1 from rfl, hmin, if_neg (by simp), kmeansLoop,
    if_pos ?_]
  · rfl
  · show [v].map (assignOne _ 1) = List.replicate 1 0
    have h0 : ∀ C : List (List ℝ), assignOne C 1 v = 0 := by
      intro C
      apply argminIdx_const
      intro i hi
      interval_cases i
      rfl
    simp [h0]

/-- Claim C6, counterexample: two regions sharing the name `"A"`; the
first (raw total 2, eligible at `min_evidence = 2`) is labelled 0, the
second (raw total 1) is excluded, yet its name `"A"` appears in cluster
0's region list, because the summary lists member *names* and names need
not be unique. -/
theorem assign_dup_name_cex :
    (assign_clusters takeRng [muniTwoObs, muniDupName] tax0 Level.species 5 2 20).map
      (fun out => (out.1, out.2.2.2.1.map (fun p => (p.1, p.2.municipios)))) =
      some ([some 0, none], [(0, ["A"])]) ∧
    muniDupName.name = "A" := by
  refine ⟨?_, rfl⟩
  obtain ⟨els, labels0, hkm, hlen, hlab, hassign⟩ :=
    assign_clusters_eq_some takeRng [muniTwoObs, muniDupName] tax0 Level.species 5 2 20
      (by norm_num)
  have ht0 : (apply_tfidf_shrinkage
      (build_feature_matrix [muniTwoObs, muniDupName] tax0 Level.species).1 20).2.getD 0 0 =
      2 := by
    rw [row_totals_getD _ _ 0 (by rw [build_rows_length]; norm_num),
      build_row_total _ _ _ 0 (by norm_num)]
    norm_num [muniTwoObs]
  have ht1 : (apply_tfidf_shrinkage
      (build_feature_matrix [muniTwoObs, muniDupName] tax0 Level.species).1 20).2.getD 1 0 =
      1 := by
    rw [row_totals_getD _ _ 1 (by rw [build_rows_length]; norm_num),
      build_row_total _ _ _ 1 (by norm_num)]
    norm_num [muniDupName]
  have helig : eligibleIndices (apply_tfidf_shrinkage
      (build_feature_matrix [muniTwoObs, muniDupName] tax0 Level.species).1 20).2 2 =
      [0] := by
    rw [eligibleIndices_eq, row_totals_length, build_rows_length,
      show ([muniTwoObs, muniDupName] : List Municipio).length = 2 from rfl,
      show List.range 2 = [0, 1] from rfl, List.filter_cons, List.filter_cons,
      List.filter_nil, if_pos (by rw [ht0]; exact decide_eq_true (by norm_num)),
      if_neg (by rw [ht1]; simp only [decide_eq_true_eq]; norm_num)]
  have hkm1 : kmeans takeRng [(apply_tfidf_shrinkage
      (build_feature_matrix [muniTwoObs, muniDupName] tax0 Level.species).1 20).1.getD 0 []]
      5 50 = some [0] :=
    kmeans_singleton takeRng _ 5 50 (by norm_num) (by norm_num)
  rw [helig] at hkm hlab
  rw [show ([0] : List ℕ).map (fun idx => (apply_tfidf_shrinkage
      (build_feature_matrix [muniTwoObs, muniDupName] tax0 Level.species).1 20).1.getD
        idx []) = [(apply_tfidf_shrinkage
      (build_feature_matrix [muniTwoObs, muniDupName] tax0 Level.species).1 20).1.getD 0 []]
      from rfl, hkm1] at hkm
  have hels : els = [0] := (Option.some.inj hkm).symm
  have hl0 : labels0 = [some 0, none] := by
    rw [hlab, hels]
    rfl
  rw [hassign, hl0]
  have hsl : sortedLabels [some (0:ℕ), none] = [0] := by
    rw [sortedLabels, show ([some (0:ℕ), none].filterMap id).dedup = [0] from rfl,
      List.mergeSort_singleton]
  simp only [Option.map_some', Option.some.injEq, Prod.mk.injEq]
  refine ⟨trivial, ?_⟩
  rw [summarize_clusters, hsl]
  rfl

end ClusterMunicipios
